import Mathlib

/-!
# Verification of the AlphaLink2 inference/selection loop (`inference.py`)

This file is a shallow embedding of the core logic of `inference.py`:

* the resource-adaptive chunk-size heuristic (`get_device_mem`,
  `automatic_chunk_size`);
* the RDC Q-factor scoring routine (`compute_q_factor`), including its
  per-record silent-skip policy and its NaN/infinity sentinel behaviour;
* the crosslink satisfaction computation (distances / `xl` / `asym_id`
  masks and the `satisfied / total_xl` ratio);
* the best-of-N selection loop of `main`, including the seed derivation
  `hash((data_random_seed, seed)) % 100000`, the per-iteration structure
  writes, and the final persistence pass.

Modelling conventions:

* Python/numpy floats are idealised as exact rationals, except that the
  IEEE special values NaN and +infinity - which the code uses as score
  sentinels - are modelled explicitly by the `PFloat` type, whose `lt`
  mirrors the IEEE comparison (NaN incomparable, `inf` above all finite
  values).  Only `+inf` can arise in the code (`np.inf`), so `-inf` is
  not modelled.
* `math.sqrt`/`np.sqrt` appear in the code only (a) inside the factor of
  `automatic_chunk_size`, where we embed the integer thresholds
  `int(1024 * factor)` exactly via an integer square root (a bridge lemma
  connects this to the real `Real.sqrt` formula), and (b) as the outermost
  step of the Q-factor `sqrt(mean(diffs^2))/sqrt(mean(values^2))`;
  there the finite payload carried by our `computeQFactor` is the *square*
  of the code's Q value.  `Real.sqrt` is strictly monotone on nonnegatives,
  so the squared payload induces exactly the same strict comparisons in
  the selection loop and exactly the same NaN/inf classification.
* Python's builtin `hash` on an `(int, int)` tuple is a fixed,
  deterministic (per platform, value-based) function external to the
  repository; it is modelled as an arbitrary function parameter `pyHash`.
* The RDC scoring call crashes at runtime: `compute_q_factor`'s first
  statement invokes `.detach()` on its argument, but `main` passes the
  numpy array produced on line 212 (`np.array(x.cpu())`), so the call on
  line 245 raises AttributeError - outside the per-row `try`, uncaught
  anywhere - before the score print, the comparison and the structure
  write.  `ArrayVal` and `compute_q_factor` model the call as made, and
  `iterStepRun`/`runItersRun`/`runMainRun` model the run as executed:
  every RDC-variant run with at least one iteration dies inside its
  first iteration, producing no score, no selection and no output file.
  `computeQFactor` (the row loop) and `iterStep`'s RDC arm embed the
  program text beyond the raising statement - dead code on the inputs
  `main` constructs, kept because the crosslink arm of the very same
  loop body is live and because invariants of the selection bookkeeping
  are stated on it.
-/

namespace AlphaLink

/-- IEEE-style float value as used for the selection scores: NaN,
+infinity, or a finite (exact rational) value. -/
inductive PFloat where
  | nan : PFloat
  | inf : PFloat
  | fin : ℚ → PFloat
deriving DecidableEq, Repr

namespace PFloat

/-- Strict `<` with IEEE semantics: NaN is incomparable with everything
(including itself); `inf` is strictly above every finite value. -/
def lt : PFloat → PFloat → Bool
  | fin a, fin b => decide (a < b)
  | fin _, inf => true
  | _, _ => false

theorem lt_irrefl (a : PFloat) : lt a a = false := by
  cases a <;> simp [lt]

theorem lt_asymm {a b : PFloat} (h : lt a b = true) : lt b a = false := by
  cases a <;> cases b <;> simp_all [lt]
  exact h.le

theorem lt_nan_left (b : PFloat) : lt nan b = false := by cases b <;> rfl

theorem lt_nan_right (a : PFloat) : lt a nan = false := by cases a <;> rfl

theorem lt_inf_left (b : PFloat) : lt inf b = false := by cases b <;> rfl

end PFloat

/-- `np.mean` over a 1-dimensional array of (possibly special) floats:
NaN if the array is empty (numpy's `mean of empty slice`) or contains a
NaN; +infinity if it contains an infinity (and no NaN); otherwise the
exact arithmetic mean. -/
def npMean (xs : List PFloat) : PFloat :=
  if xs.isEmpty then .nan
  else if xs.any (fun x => x = .nan) then .nan
  else if xs.any (fun x => x = .inf) then .inf
  else .fin (((xs.map (fun x => match x with | .fin q => q | _ => 0)).sum) / xs.length)

/-! ## `get_device_mem` and `automatic_chunk_size` -/

/-- The CUDA environment visible to `get_device_mem`: whether
`torch.cuda.is_available()` holds and, if so, the current device's total
memory in GB. -/
structure DeviceEnv where
  cudaAvailable : Bool
  totalMemGB : ℚ
deriving DecidableEq

/-- `get_device_mem`: the device memory budget in GB, falling back to 40
when the device is `"cpu"` or CUDA is unavailable. -/
def get_device_mem (env : DeviceEnv) (device : String) : ℚ :=
  if device ≠ "cpu" ∧ env.cudaAvailable then env.totalMemGB else 40

/-- `⌊Real.sqrt q⌋` computed exactly on rationals: for `0 ≤ q` it equals
`Nat.sqrt ⌊q⌋` (see `ratSqrtFloor_eq`). -/
def ratSqrtFloor (q : ℚ) : ℕ := Nat.sqrt ⌊q⌋.toNat

/-- The threshold `int(k * factor)` of `automatic_chunk_size`, where
`factor = math.sqrt(total_mem_in_GB/40.0*(0.55 * is_bf16 + 0.45))*0.95`.
Since `k * 0.95 * sqrt r = sqrt (k^2 * 0.9025 * r)` (all factors
nonnegative, `0.9025 = 361/400`), the integer truncation is the integer
square root of the floor of an exact rational; `chunkThreshold_eq_floor`
proves this agrees with the real-valued formula. -/
def chunkThreshold (k : ℕ) (memGB : ℚ) (is_bf16 : Bool) : ℕ :=
  ratSqrtFloor ((k ^ 2 : ℚ) * (361 / 400) *
    (memGB / 40 * ((if is_bf16 then (55 : ℚ) / 100 else 0) + 45 / 100)))

/-- `automatic_chunk_size(seq_len, device, is_bf16)`: thresholds the
sequence length against the factor-scaled breakpoints 1024/2048/3072/4096
and returns the `(chunk_size, block_size)` pair of the matching branch. -/
def automatic_chunk_size (seq_len : ℕ) (env : DeviceEnv) (device : String)
    (is_bf16 : Bool) : ℕ × Option ℕ :=
  let mem := get_device_mem env device
  if seq_len < chunkThreshold 1024 mem is_bf16 then (256, none)
  else if seq_len < chunkThreshold 2048 mem is_bf16 then (128, none)
  else if seq_len < chunkThreshold 3072 mem is_bf16 then (64, none)
  else if seq_len < chunkThreshold 4096 mem is_bf16 then (32, some 512)
  else (4, some 256)

theorem ratSqrtFloor_eq (q : ℚ) (hq : 0 ≤ q) :
    (ratSqrtFloor q : ℤ) = ⌊Real.sqrt (q : ℝ)⌋ := by
  have hfl0 : (0 : ℤ) ≤ ⌊q⌋ := Int.floor_nonneg.mpr hq
  have hcast : ((⌊q⌋.toNat : ℕ) : ℚ) = ((⌊q⌋ : ℤ) : ℚ) := by
    exact_mod_cast Int.toNat_of_nonneg hfl0
  have hmq : ((⌊q⌋.toNat : ℕ) : ℚ) ≤ q := by
    rw [hcast]; exact Int.floor_le q
  have hqm : q < ((⌊q⌋.toNat : ℕ) : ℚ) + 1 := by
    rw [hcast]; exact Int.lt_floor_add_one q
  set m : ℕ := ⌊q⌋.toNat with hm
  set n : ℕ := Nat.sqrt m with hn
  have hn2 : (n : ℚ) ^ 2 ≤ q := by
    have h1 : n ^ 2 ≤ m := Nat.sqrt_le' m
    calc (n : ℚ) ^ 2 = ((n ^ 2 : ℕ) : ℚ) := by push_cast; ring
      _ ≤ (m : ℚ) := by exact_mod_cast h1
      _ ≤ q := hmq
  have hq2 : q < ((n : ℚ) + 1) ^ 2 := by
    have h2 : m + 1 ≤ (n + 1) ^ 2 := by
      have h3 := Nat.lt_succ_sqrt' m
      have : m < (n + 1) ^ 2 := by
        simpa [Nat.succ_eq_add_one, pow_two, hn] using h3
      omega
    calc q < (m : ℚ) + 1 := hqm
      _ ≤ (((n + 1) ^ 2 : ℕ) : ℚ) := by exact_mod_cast h2
      _ = ((n : ℚ) + 1) ^ 2 := by push_cast; ring
  have h1r : (n : ℝ) ≤ Real.sqrt (q : ℝ) := by
    rw [show ((n : ℝ)) = Real.sqrt ((n : ℝ) ^ 2) from
      (Real.sqrt_sq (by positivity)).symm]
    exact Real.sqrt_le_sqrt (by exact_mod_cast hn2)
  have h2r : Real.sqrt (q : ℝ) < (n : ℝ) + 1 := by
    rw [show ((n : ℝ) + 1) = Real.sqrt (((n : ℝ) + 1) ^ 2) from
      (Real.sqrt_sq (by positivity)).symm]
    exact Real.sqrt_lt_sqrt (by exact_mod_cast hq) (by exact_mod_cast hq2)
  have hfe : ⌊Real.sqrt (q : ℝ)⌋ = (n : ℤ) := by
    rw [Int.floor_eq_iff]
    exact ⟨by exact_mod_cast h1r, by exact_mod_cast h2r⟩
  rw [hfe]
  rfl

/-- The exact-integer threshold agrees with the real-valued
`int(k * (sqrt(mem/40*(0.55*is_bf16+0.45)) * 0.95))` of the source. -/
theorem chunkThreshold_eq_floor (k : ℕ) (memGB : ℚ) (is_bf16 : Bool)
    (h : 0 ≤ memGB) :
    (chunkThreshold k memGB is_bf16 : ℤ) =
      ⌊(k : ℝ) * (Real.sqrt ((memGB : ℝ) / 40 *
        ((if is_bf16 then (0.55 : ℝ) else 0) + 0.45)) * 0.95)⌋ := by
  have hc : (0 : ℚ) ≤ (if is_bf16 then (55 : ℚ) / 100 else 0) + 45 / 100 := by
    cases is_bf16 <;> norm_num
  have hx : (0 : ℚ) ≤ memGB / 40 * ((if is_bf16 then (55 : ℚ) / 100 else 0) + 45 / 100) := by
    apply mul_nonneg (by positivity) hc
  have harg : (0 : ℚ) ≤ (k ^ 2 : ℚ) * (361 / 400) *
      (memGB / 40 * ((if is_bf16 then (55 : ℚ) / 100 else 0) + 45 / 100)) := by
    apply mul_nonneg (by positivity) hx
  rw [chunkThreshold, ratSqrtFloor_eq _ harg]
  congr 1
  set x : ℚ := memGB / 40 * ((if is_bf16 then (55 : ℚ) / 100 else 0) + 45 / 100) with hxdef
  have hcast : (((k ^ 2 : ℚ) * (361 / 400) * x : ℚ) : ℝ) =
      (((k : ℝ) * (19 / 20)) ^ 2) * (x : ℝ) := by
    push_cast
    ring
  rw [hcast, Real.sqrt_mul (by positivity), Real.sqrt_sq (by positivity)]
  have hxr : (x : ℝ) = (memGB : ℝ) / 40 * ((if is_bf16 then (0.55 : ℝ) else 0) + 0.45) := by
    rw [hxdef]
    cases is_bf16 <;> push_cast <;> norm_num
  rw [hxr]
  have h95 : (0.95 : ℝ) = 19 / 20 := by norm_num
  rw [h95]
  ring

/-! ## RDC Q-factor (`load_rdc_file` rows and `compute_q_factor`) -/

/-- A 3D coordinate triple (x, y, z), exact-rational idealisation of a
float vector. -/
abbrev Vec3 := ℚ × ℚ × ℚ

/-- One row of the tab-delimited RDC table: `residue, atom1, atom2, value`
(`residue` is 1-based in the file; `int(row["residue"])` in the code). -/
structure RDCRow where
  residue : Int
  atom1 : String
  atom2 : String
  value : ℚ
deriving DecidableEq, Repr

/-- Python/numpy sequence indexing with an `Int` index: indices in
`[0, len)` index from the front, indices in `[-len, 0)` wrap around from
the back, and anything else is an `IndexError` (`none`). -/
def npGet {α : Type} (xs : List α) (i : Int) : Option α :=
  if 0 ≤ i then xs[i.toNat]?
  else if 0 ≤ i + xs.length then xs[(i + xs.length).toNat]?
  else none

/-- The body of `compute_q_factor`'s per-row `try` block.  Resolves both
atom names through the atom-name vocabulary `atomOrder` (modelled from the
spec: the repository's fixed `rc.atom_order` dictionary is external to the
inference source), indexes `coords[res_idx]` with Python semantics, and
produces the `(pred_rdc - value, value)` contribution.  Any lookup
failure (`KeyError` on an atom name, `IndexError` on the residue or atom
index) is the caught exception: the row yields `none` and is skipped.
A zero-length displacement vector gives `angle = 0/0 = NaN` - not an
exception - so the diff component is `Option ℚ` with `none` meaning NaN.
`pred_rdc = (vec_z / norm(vec))^2 = vec_z^2 / norm(vec)^2` is exact. -/
def resolveRow (atomOrder : String → Option ℕ) (coords : List (List Vec3))
    (r : RDCRow) : Option (Option ℚ × ℚ) :=
  match atomOrder r.atom1, atomOrder r.atom2 with
  | some a1, some a2 =>
    match npGet coords (r.residue - 1) with
    | some resAtoms =>
      match npGet resAtoms (a2 : Int), npGet resAtoms (a1 : Int) with
      | some c2, some c1 =>
        let v : Vec3 := (c2.1 - c1.1, c2.2.1 - c1.2.1, c2.2.2 - c1.2.2)
        let n2 : ℚ := v.1 ^ 2 + v.2.1 ^ 2 + v.2.2 ^ 2
        some (if n2 = 0 then none else some (v.2.2 ^ 2 / n2 - r.value), r.value)
      | _, _ => none
    | none => none
  | _, _ => none

/-- The `(diff, value)` pairs accumulated by `compute_q_factor`'s loop:
exactly the rows whose `try` block completed. -/
def rdcSurvivors (atomOrder : String → Option ℕ) (coords : List (List Vec3))
    (rows : List RDCRow) : List (Option ℚ × ℚ) :=
  rows.filterMap (resolveRow atomOrder coords)

/-- The row loop of `compute_q_factor` (everything after its first
statement, lines 222-243).  NOTE: as `main` calls the function this code
is never reached - the first statement raises on the numpy input (see
`compute_q_factor` below); it is reachable only on a torch-tensor input.
Returns `inf` when no records survive (`len(values) == 0`), otherwise
classifies `q = sqrt(mean(diffs^2)) / sqrt(mean(values^2))`:

* a NaN diff (zero-length bond vector) makes the numerator NaN and hence
  `q` NaN, whatever the denominator (numpy: `nan/x = nan`, `nan/0 = nan`);
* a zero denominator with a nonzero numerator gives `inf`, and `0/0`
  gives NaN;
* otherwise `q` is finite, and the payload carried here is the exact
  square `mean(diffs^2) / mean(values^2)` of the code's float `q`
  (the outer square roots are strictly monotone on nonnegatives, so this
  payload induces the same strict comparisons and the same NaN/inf
  classification as `q` itself). -/
def computeQFactor (atomOrder : String → Option ℕ) (coords : List (List Vec3))
    (rows : List RDCRow) : PFloat :=
  let s := rdcSurvivors atomOrder coords rows
  if s.isEmpty then .inf
  else if s.any (fun d => d.1 = none) then .nan
  else
    let num : ℚ := ((s.map (fun d => (d.1.getD 0) ^ 2)).sum) / s.length
    let den : ℚ := ((s.map (fun d => d.2 ^ 2)).sum) / s.length
    if den = 0 then (if num = 0 then .nan else .inf) else .fin (num / den)

/-- The runtime type of the coordinate array handed to the scoring call:
after line 212 (`out = tensor_tree_map(lambda x: np.array(x.cpu()), out)`)
the model output holds numpy arrays; a torch tensor is what
`compute_q_factor`'s first statement expects. -/
inductive ArrayVal where
  | torch (coords : List (List Vec3))
  | numpy (coords : List (List Vec3))
deriving DecidableEq, Repr

/-- `compute_q_factor(pred_coords, rdc_df)` as a call.  Its first
statement `coords_np = pred_coords.detach().cpu().numpy()` needs a torch
tensor; on the numpy array that `main` actually passes (line 245 slices
the line-212-converted `out["final_atom_positions"]`), the attribute
lookup `.detach` raises AttributeError - outside the per-row `try` and
uncaught anywhere in `main` - so the call dies before entering the row
loop and no Q value is ever produced (`none`).  Only a tensor input
would reach the row loop `computeQFactor`. -/
def compute_q_factor (pred_coords : ArrayVal)
    (atomOrder : String → Option ℕ) (rows : List RDCRow) : Option PFloat :=
  match pred_coords with
  | .torch coords => some (computeQFactor atomOrder coords rows)
  | .numpy _ => none

/-! ## Crosslink satisfaction (the non-RDC branch of the loop body) -/

/-- The normalized feature batch fields the selection loop reads:
`batch["xl"][..., 0]` (crosslink strengths, an n x n matrix) and
`batch["asym_id"]` (per-residue chain identifiers). -/
structure NormBatch where
  xl : List (List ℚ)
  asymId : List ℚ
deriving DecidableEq, Repr

instance : Inhabited NormBatch := ⟨⟨[], []⟩⟩

/-- The normalized model output fields the selection loop reads:
`out["final_atom_positions"]` ([residue][atom] coordinates),
`out["plddt"]` and `out["iptm+ptm"]`. -/
structure NormOut where
  atomPos : List (List Vec3)
  plddt : List PFloat
  iptmptm : List PFloat
deriving DecidableEq, Repr

instance : Inhabited NormOut := ⟨⟨[], [], []⟩⟩

/-- `out["final_atom_positions"][..., ca_idx, :]`: the alpha-carbon
coordinate of each residue.  (`rc.atom_order["CA"]` is a fixed in-range
atom index; the `getD` default never fires on well-formed outputs, whose
per-residue rows all have the full fixed atom width.) -/
def caCoords (ca_idx : ℕ) (o : NormOut) : List Vec3 :=
  o.atomPos.map (fun atoms => atoms.getD ca_idx (0, 0, 0))

/-- Squared Euclidean distance between two coordinate triples. -/
def distSq (a b : Vec3) : ℚ :=
  (a.1 - b.1) ^ 2 + (a.2.1 - b.2.1) ^ 2 + (a.2.2 - b.2.2) ^ 2

/-- All (i, j) index pairs of an n x n matrix, row-major - the cells the
boolean masks of the crosslink branch range over. -/
def allPairs (n : ℕ) : List (ℕ × ℕ) :=
  (List.range n).flatMap (fun i => (List.range n).map (fun j => (i, j)))

/-- `batch['xl'][..., 0] > 0` at cell (i, j). -/
def xlFlag (b : NormBatch) (i j : ℕ) : Bool :=
  decide (0 < (b.xl.getD i []).getD j 0)

/-- `batch['asym_id'][..., None] != batch['asym_id'][..., None, :]` at
cell (i, j): the pair spans two different chains. -/
def interfaceFlag (b : NormBatch) (i j : ℕ) : Bool :=
  decide ((b.asymId.getD i 0) ≠ (b.asymId.getD j 0))

/-- The residue count over which the masks range. -/
def nRes (b : NormBatch) : ℕ := b.asymId.length

/-- `total_xl = torch.sum(xl & interface) / 2` (the symmetric pair matrix
double-counts every undirected pair, hence the halving). -/
def totalXl (b : NormBatch) : ℚ :=
  (((allPairs (nRes b)).countP
    (fun ij => xlFlag b ij.1 ij.2 && interfaceFlag b ij.1 ij.2) : ℕ) : ℚ) / 2

/-- `satisfied = torch.sum(distances[xl & interface] <= cutoff) / 2`.
`dist <= cutoff` is embedded as `0 <= cutoff AND distSq <= cutoff^2`,
which is equivalent for every sign of the cutoff since distances are
nonnegative. -/
def satisfiedXl (cutoff : ℚ) (ca : List Vec3) (b : NormBatch) : ℚ :=
  (((allPairs (nRes b)).countP
    (fun ij : ℕ × ℕ => xlFlag b ij.1 ij.2 && interfaceFlag b ij.1 ij.2 &&
      decide (0 ≤ cutoff ∧
        distSq (ca.getD ij.1 (0, 0, 0)) (ca.getD ij.2 (0, 0, 0)) ≤ cutoff ^ 2)) : ℕ) : ℚ) / 2

/-- The logged `satisfied / total_xl` value with float-division semantics:
`0/0` is NaN (and a positive numerator over zero would be `inf`, though
`satisfied <= total_xl` makes that unreachable). -/
def satisfactionRatio (cutoff : ℚ) (ca : List Vec3) (b : NormBatch) : PFloat :=
  let s := satisfiedXl cutoff ca b
  let t := totalXl b
  if t = 0 then (if s = 0 then .nan else .inf) else .fin (s / t)

/-! ## The best-of-N selection loop of `main` -/

/-- Externally visible side effects of one run, in program order.
Structure-file names are kept structurally: a per-iteration file is
`AlphaLink2_{seed}_{conf:.3f}.pdb` and the best file is
`AlphaLink2_{param_postfix}_{seed}_{conf:.3f}(_best.pdb)`; the JSON
summaries map that best name to the mean confidence values. -/
inductive Event where
  /-- The per-iteration `print` of the selection metric (crosslink
  satisfaction ratio, or RDC Q-factor) together with the mean
  `iptm+ptm` confidence. -/
  | scoreLog (metric : PFloat) (conf : PFloat)
  /-- The unconditional per-iteration structure write
  (`protein.from_prediction(features=batch, result=out)` of THIS
  iteration, named by the derived seed and the confidence). -/
  | iterPdb (seed : Int) (conf : PFloat) (result : NormOut) (features : NormBatch)
  /-- The best-sample structure write after the loop (relaxed), named by
  the parameter-file postfix, the winning seed and the confidence. -/
  | bestPdb (paramPostfix : String) (seed : Option Int) (conf : PFloat)
      (result : NormOut) (features : NormBatch)
  /-- The `*_plddt.json` summary: best name ↦ mean pLDDT. -/
  | plddtJson (paramPostfix : String) (seed : Option Int) (conf : PFloat)
      (meanPlddt : PFloat)
  /-- The `*_ptm.json` summary (multimer targets only): best name ↦ mean
  `iptm+ptm`. -/
  | ptmJson (paramPostfix : String) (seed : Option Int) (conf : PFloat)
      (meanPtm : PFloat)
deriving DecidableEq, Repr

/-- The run parameters the loop reads.  `pyHash` is Python's builtin
`hash` on an `(int, int)` tuple, modelled from the spec as an arbitrary
fixed (deterministic, per-platform) integer function external to the
repository.  `rdcRows?` is `some rows` exactly when `--rdc_path` was
supplied (the RDC variant). -/
structure Params where
  pyHash : Int → Int → Int
  baseSeed : Int
  cutoff : ℚ
  ca_idx : ℕ
  atomOrder : String → Option ℕ
  rdcRows? : Option (List RDCRow)
  relax : Bool
  isMultimer : Bool
  paramPostfix : String

/-- `hash((data_random_seed, seed)) % 100000` - the derived seed of the
iteration whose entering `seed` counter is `i`.  (Python's `%` with a
positive modulus and Lean's `Int.emod` agree: both land in `[0, 100000)`.) -/
def derivedSeed (h : Int → Int → Int) (base : Int) (i : ℕ) : Int :=
  h base (i : Int) % 100000

/-- The mutable state of `main`'s loop: the `seed` counter, the running
best (`best_out`, `best_iptm`, `best_q_score`, `best_seed`), the current
`batch` binding that survives the loop, and the side effects so far.
`best_q_score` is `none` while the Python variable is still unbound
(which the short-circuit `best_out is None or ...` never reads). -/
structure LoopState where
  seedCtr : ℕ
  bestOut : Option NormOut
  bestIptm : PFloat
  bestQ : Option PFloat
  bestSeed : Option Int
  lastBatch : Option NormBatch
  events : List Event

/-- State at loop entry: `seed = 0`, `best_out = None`,
`best_iptm = 0.0`, `best_seed = None`. -/
def initState : LoopState :=
  { seedCtr := 0, bestOut := none, bestIptm := .fin 0, bestQ := none,
    bestSeed := none, lastBatch := none, events := [] }

/-- The active strategy's score of one iteration's sample as the program
text computes it: RDC Q-factor when an RDC table is loaded (the row-loop
value; at runtime that call raises instead, see `compute_q_factor`),
mean `iptm+ptm` confidence otherwise. -/
def sampleScore (p : Params) (bo : NormBatch × NormOut) : PFloat :=
  match p.rdcRows? with
  | some rows => computeQFactor p.atomOrder bo.2.atomPos rows
  | none => npMean bo.2.iptmptm

/-- "`c` is strictly better than `b`" under the active strategy:
`q_score < best_q_score` for RDC, `mean(iptm+ptm) > best_iptm` for
crosslinks. -/
def betterP (p : Params) (c b : PFloat) : Bool :=
  match p.rdcRows? with
  | some _ => PFloat.lt c b
  | none => PFloat.lt b c

/-- One iteration of `main`'s loop on sample `bo = (batch, out)` as the
program TEXT has it: derive the seed, advance the counter, score under
the active strategy, log the metric, conditionally replace the running
best (`best_out is None or <new strictly better>`), and unconditionally
write this iteration's structure file.  The crosslink arm is executed
exactly as written.  The RDC arm is the continuation after the
`compute_q_factor` call of line 245 - dead code at runtime, because that
call raises before the print, the comparison and the write (the executed
iteration is `iterStepRun`). -/
def iterStep (p : Params) (st : LoopState) (bo : NormBatch × NormOut) : LoopState :=
  let curSeed := derivedSeed p.pyHash p.baseSeed st.seedCtr
  let b := bo.1
  let o := bo.2
  let conf := npMean o.iptmptm
  match p.rdcRows? with
  | some rows =>
    let q := computeQFactor p.atomOrder o.atomPos rows
    let replace := st.bestOut.isNone || PFloat.lt q (st.bestQ.getD .nan)
    { seedCtr := st.seedCtr + 1
      bestOut := if replace then some o else st.bestOut
      bestIptm := st.bestIptm
      bestQ := if replace then some q else st.bestQ
      bestSeed := if replace then some curSeed else st.bestSeed
      lastBatch := some b
      events := st.events ++ [.scoreLog q conf, .iterPdb curSeed conf o b] }
  | none =>
    let ratio := satisfactionRatio p.cutoff (caCoords p.ca_idx o) b
    let replace := st.bestOut.isNone || PFloat.lt st.bestIptm conf
    { seedCtr := st.seedCtr + 1
      bestOut := if replace then some o else st.bestOut
      bestIptm := if replace then conf else st.bestIptm
      bestQ := st.bestQ
      bestSeed := if replace then some curSeed else st.bestSeed
      lastBatch := some b
      events := st.events ++ [.scoreLog ratio conf, .iterPdb curSeed conf o b] }

/-- `for it in range(times)`: fold the textual loop body over the
iteration samples (the feature batch and normalized model output of each
draw).  This is the executed loop for the crosslink variant; the
executed loop in general is `runItersRun`. -/
def runIters (p : Params) (st : LoopState) : List (NormBatch × NormOut) → LoopState
  | [] => st
  | bo :: rest => runIters p (iterStep p st bo) rest

/-- One iteration of `main`'s loop as the program EXECUTES it.  The
crosslink arm completes (`iterStep`).  The RDC arm first evaluates
`q_score = compute_q_factor(out["final_atom_positions"][..., :], rdc_df)`
on the numpy coordinates; the AttributeError raised there propagates
(`none`) and kills the run before the score print, the comparison and
the structure write.  Had the call returned a value, the remainder of
the iteration would be `iterStep`'s RDC arm. -/
def iterStepRun (p : Params) (st : LoopState) (bo : NormBatch × NormOut) :
    Option LoopState :=
  match p.rdcRows? with
  | some rows =>
    match compute_q_factor (ArrayVal.numpy bo.2.atomPos) p.atomOrder rows with
    | none => none
    | some _ => some (iterStep p st bo)
  | none => some (iterStep p st bo)

/-- The iteration loop as executed: an exception raised inside an
iteration aborts the whole run (`none`).  The only raising iterations
are RDC-variant ones, and those die before emitting any event, so no
trace survives a `none` outcome - the crash always happens in the first
iteration, before any structure file has been flushed. -/
def runItersRun (p : Params) :
    Option LoopState → List (NormBatch × NormOut) → Option LoopState
  | none, _ => none
  | some st, [] => some st
  | some st, bo :: rest => runItersRun p (iterStepRun p st bo) rest

/-- The post-loop persistence pass (`out = best_out` onward): `none`
models the fatal `TypeError` when the loop never ran (`best_out is None`);
otherwise the best structure is written only under `args.relax`, using
the winning output but the LAST iteration's `batch` binding, followed by
the `plddt` JSON and (for multimer targets) the `ptm` JSON. -/
def finalize (p : Params) (st : LoopState) : Option (List Event) :=
  match st.bestOut with
  | none => none
  | some o =>
    let conf := npMean o.iptmptm
    some (st.events ++
      (if p.relax then
        [Event.bestPdb p.paramPostfix st.bestSeed conf o (st.lastBatch.getD default)]
      else []) ++
      [Event.plddtJson p.paramPostfix st.bestSeed conf (npMean o.plddt)] ++
      (if p.isMultimer then [Event.ptmJson p.paramPostfix st.bestSeed conf conf]
       else []))

/-- A whole run of `main` under the assumption that every iteration
completes (true exactly for the crosslink variant): the textual loop
followed by the persistence pass.  Returns the final loop state and,
when the persistence pass itself completes, the full side-effect trace.
The executed run in general is `runMainRun`. -/
def runMain (p : Params) (samples : List (NormBatch × NormOut)) :
    LoopState × Option (List Event) :=
  let st := runIters p initState samples
  (st, finalize p st)

/-- A whole run of `main` as executed: if the loop dies (an RDC-variant
iteration), the run ends in the uncaught AttributeError with nothing
written (`none`); otherwise the persistence pass of `finalize` runs. -/
def runMainRun (p : Params) (samples : List (NormBatch × NormOut)) :
    Option (LoopState × Option (List Event)) :=
  match runItersRun p (some initState) samples with
  | none => none
  | some st => some (st, finalize p st)

theorem iterStepRun_crosslink (p : Params) (st : LoopState)
    (bo : NormBatch × NormOut) (hv : p.rdcRows? = none) :
    iterStepRun p st bo = some (iterStep p st bo) := by
  rw [iterStepRun, hv]

theorem iterStepRun_rdc (p : Params) (rows : List RDCRow) (st : LoopState)
    (bo : NormBatch × NormOut) (hv : p.rdcRows? = some rows) :
    iterStepRun p st bo = none := by
  rw [iterStepRun, hv]
  rfl

theorem runItersRun_none (p : Params) (d : List (NormBatch × NormOut)) :
    runItersRun p none d = none := by
  cases d <;> rfl

theorem runItersRun_crosslink (p : Params) (d : List (NormBatch × NormOut))
    (hv : p.rdcRows? = none) :
    ∀ st, runItersRun p (some st) d = some (runIters p st d) := by
  induction d with
  | nil => intro st; rfl
  | cons bo rest ih =>
    intro st
    show runItersRun p (iterStepRun p st bo) rest = _
    rw [iterStepRun_crosslink p st bo hv, ih (iterStep p st bo)]
    rfl

theorem runItersRun_rdc (p : Params) (rows : List RDCRow)
    (d : List (NormBatch × NormOut)) (hv : p.rdcRows? = some rows)
    (hd : d ≠ []) : ∀ st, runItersRun p (some st) d = none := by
  cases d with
  | nil => exact absurd rfl hd
  | cons bo rest =>
    intro st
    show runItersRun p (iterStepRun p st bo) rest = none
    rw [iterStepRun_rdc p rows st bo hv, runItersRun_none]

theorem runMainRun_crosslink (p : Params) (samples : List (NormBatch × NormOut))
    (hv : p.rdcRows? = none) :
    runMainRun p samples = some (runIters p initState samples,
      finalize p (runIters p initState samples)) := by
  rw [runMainRun, runItersRun_crosslink p samples hv initState]

theorem runMainRun_rdc (p : Params) (rows : List RDCRow)
    (samples : List (NormBatch × NormOut)) (hv : p.rdcRows? = some rows)
    (hd : samples ≠ []) : runMainRun p samples = none := by
  rw [runMainRun, runItersRun_rdc p rows samples hv hd initState]

/-! ## Helper lemmas about the loop -/

/-- `st` holds `o` as running best with score `b` under the active
strategy (`best_iptm` for crosslinks, `best_q_score` for RDC). -/
def HasBest (p : Params) (st : LoopState) (o : NormOut) (b : PFloat) : Prop :=
  st.bestOut = some o ∧
  match p.rdcRows? with
  | some _ => st.bestQ = some b
  | none => st.bestIptm = b

/-- The running best's score, when a best exists. -/
def bestScore (p : Params) (st : LoopState) : Option PFloat :=
  match st.bestOut with
  | none => none
  | some _ =>
    match p.rdcRows? with
    | some _ => st.bestQ
    | none => some st.bestIptm

/-- The logged per-iteration metric (satisfaction ratio / Q-factor). -/
def iterMetric (p : Params) (bo : NormBatch × NormOut) : PFloat :=
  match p.rdcRows? with
  | some rows => computeQFactor p.atomOrder bo.2.atomPos rows
  | none => satisfactionRatio p.cutoff (caCoords p.ca_idx bo.2) bo.1

theorem iterStep_seedCtr (p : Params) (st : LoopState) (bo : NormBatch × NormOut) :
    (iterStep p st bo).seedCtr = st.seedCtr + 1 := by
  cases h : p.rdcRows? <;> simp [iterStep, h]

theorem iterStep_lastBatch (p : Params) (st : LoopState) (bo : NormBatch × NormOut) :
    (iterStep p st bo).lastBatch = some bo.1 := by
  cases h : p.rdcRows? <;> simp [iterStep, h]

theorem iterStep_bestQ_crosslink (p : Params) (st : LoopState)
    (bo : NormBatch × NormOut) (h : p.rdcRows? = none) :
    (iterStep p st bo).bestQ = st.bestQ := by
  simp [iterStep, h]

theorem iterStep_events (p : Params) (st : LoopState) (bo : NormBatch × NormOut) :
    (iterStep p st bo).events = st.events ++
      [Event.scoreLog (iterMetric p bo) (npMean bo.2.iptmptm),
       Event.iterPdb (derivedSeed p.pyHash p.baseSeed st.seedCtr)
         (npMean bo.2.iptmptm) bo.2 bo.1] := by
  cases h : p.rdcRows? <;> simp [iterStep, iterMetric, h]

theorem iterStep_bestOut_isSome (p : Params) (st : LoopState)
    (bo : NormBatch × NormOut) : (iterStep p st bo).bestOut.isSome = true := by
  cases h : p.rdcRows? <;> cases hb : st.bestOut <;>
    simp [iterStep, h, hb] <;> split <;> simp

theorem iterStep_none (p : Params) (st : LoopState) (bo : NormBatch × NormOut)
    (h : st.bestOut = none) :
    HasBest p (iterStep p st bo) bo.2 (sampleScore p bo) ∧
    (iterStep p st bo).bestSeed =
      some (derivedSeed p.pyHash p.baseSeed st.seedCtr) := by
  cases hr : p.rdcRows? <;>
    simp [iterStep, HasBest, sampleScore, hr, h]

theorem iterStep_some_replace (p : Params) (st : LoopState)
    (bo : NormBatch × NormOut) (o : NormOut) (b : PFloat)
    (h : HasBest p st o b) (hrep : betterP p (sampleScore p bo) b = true) :
    HasBest p (iterStep p st bo) bo.2 (sampleScore p bo) ∧
    (iterStep p st bo).bestSeed =
      some (derivedSeed p.pyHash p.baseSeed st.seedCtr) := by
  obtain ⟨h1, h2⟩ := h
  cases hr : p.rdcRows? <;>
    simp [hr] at h2 <;>
    simp [iterStep, HasBest, sampleScore, betterP, hr, h1, h2] at hrep ⊢ <;>
    simp [hrep]

theorem iterStep_some_keep (p : Params) (st : LoopState)
    (bo : NormBatch × NormOut) (o : NormOut) (b : PFloat)
    (h : HasBest p st o b) (hrep : betterP p (sampleScore p bo) b = false) :
    HasBest p (iterStep p st bo) o b ∧
    (iterStep p st bo).bestSeed = st.bestSeed := by
  obtain ⟨h1, h2⟩ := h
  cases hr : p.rdcRows? <;>
    simp [hr] at h2 <;>
    simp [iterStep, HasBest, sampleScore, betterP, hr, h1, h2] at hrep ⊢ <;>
    simp [hrep]

theorem runIters_append (p : Params) (l1 l2 : List (NormBatch × NormOut)) :
    ∀ st, runIters p st (l1 ++ l2) = runIters p (runIters p st l1) l2 := by
  induction l1 with
  | nil => intro st; rfl
  | cons bo rest ih => intro st; simp [runIters, ih]

theorem runIters_take_succ (p : Params) (st : LoopState)
    (samples : List (NormBatch × NormOut)) (k : ℕ) :
    runIters p st (samples.take (k + 1)) =
      match samples[k]? with
      | some bo => iterStep p (runIters p st (samples.take k)) bo
      | none => runIters p st (samples.take k) := by
  rw [List.take_succ, runIters_append]
  cases h : samples[k]? <;> simp [h, runIters]

/-- Once a best with score `b` is installed, iterations whose samples are
never strictly better leave the best (and its seed) untouched. -/
theorem runIters_keep (p : Params) (d : List (NormBatch × NormOut)) :
    ∀ (st : LoopState) (o : NormOut) (b : PFloat), HasBest p st o b →
    (∀ bo ∈ d, betterP p (sampleScore p bo) b = false) →
    HasBest p (runIters p st d) o b ∧ (runIters p st d).bestSeed = st.bestSeed := by
  induction d with
  | nil => intro st o b h _; exact ⟨h, rfl⟩
  | cons bo rest ih =>
    intro st o b h hall
    have hbo := hall bo (by simp)
    have hstep := iterStep_some_keep p st bo o b h hbo
    have := ih (iterStep p st bo) o b hstep.1
      (fun x hx => hall x (by simp [hx]))
    exact ⟨this.1, by simp only [runIters]; rw [this.2, hstep.2]⟩

theorem runIters_bestOut_isSome (p : Params) (d : List (NormBatch × NormOut))
    (hd : d ≠ []) : ∀ st, (runIters p st d).bestOut.isSome = true := by
  induction d with
  | nil => exact absurd rfl hd
  | cons bo rest ih =>
    intro st
    cases hr : rest with
    | nil => simpa [runIters] using iterStep_bestOut_isSome p st bo
    | cons x xs =>
      rw [← hr]
      have : rest ≠ [] := by simp [hr]
      exact ih this (iterStep p st bo)

theorem runIters_lastBatch (p : Params) (d : List (NormBatch × NormOut)) :
    ∀ st, (runIters p st d).lastBatch =
      d.foldl (fun _ bo => some bo.1) st.lastBatch := by
  induction d with
  | nil => intro st; rfl
  | cons bo rest ih =>
    intro st
    simp [runIters, ih, List.foldl, iterStep_lastBatch]

theorem foldl_lastBatch (d : List (NormBatch × NormOut)) (hd : d ≠ []) :
    ∀ x, ∃ lastbo, d.getLast? = some lastbo ∧
      d.foldl (fun _ bo => some bo.1) x = some lastbo.1 := by
  induction d with
  | nil => exact absurd rfl hd
  | cons bo rest ih =>
    intro x
    cases rest with
    | nil => exact ⟨bo, by simp, by simp⟩
    | cons y ys =>
      obtain ⟨lb, h1, h2⟩ := ih (by simp) (some bo.1)
      refine ⟨lb, ?_, ?_⟩
      · rw [List.getLast?_cons_cons]
        exact h1
      · rw [List.foldl_cons]
        exact h2

/-! ## The abstract best-index selector

`selGo` is the pure first-seen-wins strict-improvement fold that the
loop's best bookkeeping implements; `runIters_selGo` couples the two. -/

/-- Fold a score list, keeping `(index, score)` of the running best;
a new element replaces the accumulator only when `better new acc`. -/
def selGo (better : PFloat → PFloat → Bool) :
    ℕ → Option (ℕ × PFloat) → List PFloat → Option (ℕ × PFloat)
  | _, acc, [] => acc
  | k, acc, c :: cs =>
    selGo better (k + 1)
      (match acc with
       | none => some (k, c)
       | some jb => if better c jb.2 then some (k, c) else some jb) cs

theorem selGo_nil (better : PFloat → PFloat → Bool) (k : ℕ)
    (acc : Option (ℕ × PFloat)) : selGo better k acc [] = acc := rfl

theorem selGo_cons (better : PFloat → PFloat → Bool) (k : ℕ)
    (acc : Option (ℕ × PFloat)) (c : PFloat) (cs : List PFloat) :
    selGo better k acc (c :: cs) =
      selGo better (k + 1)
        (match acc with
         | none => some (k, c)
         | some jb => if better c jb.2 then some (k, c) else some jb) cs := rfl

theorem selGo_mem (better : PFloat → PFloat → Bool) (cs : List PFloat) :
    ∀ (n : ℕ) (acc : Option (ℕ × PFloat)) (j : ℕ) (c : PFloat),
    selGo better n acc cs = some (j, c) →
    acc = some (j, c) ∨ ∃ m, cs[m]? = some c ∧ j = n + m := by
  induction cs with
  | nil => intro n acc j c h; exact Or.inl h
  | cons c0 cs ih =>
    intro n acc j c h
    rw [selGo_cons] at h
    rcases ih (n + 1) _ j c h with h1 | ⟨m, hm, hj⟩
    · cases hacc : acc with
      | none =>
        rw [hacc] at h1
        simp at h1
        exact Or.inr ⟨0, by simp [h1.2], by omega⟩
      | some jb =>
        rw [hacc] at h1
        by_cases hb : better c0 jb.2 = true
        · simp [hb] at h1
          exact Or.inr ⟨0, by simp [h1.2], by omega⟩
        · simp [eq_false_of_ne_true hb] at h1
          exact Or.inl (by rw [h1])
    · exact Or.inr ⟨m + 1, by simpa using hm, by omega⟩

/-- Once the accumulator is a non-`inf` score, and whenever a finite
score is folded in, the result of the fold is a non-`inf` score -
provided `better` never lets `inf` replace anything and always lets a
finite score replace `inf` (both true of the strict `<` on Q-factors). -/
theorem selGo_ne_inf (better : PFloat → PFloat → Bool)
    (hinf1 : ∀ b, better .inf b = false)
    (hinf2 : ∀ x, better (.fin x) .inf = true)
    (cs : List PFloat) :
    ∀ (n : ℕ) (acc : Option (ℕ × PFloat)),
    ((∃ x, PFloat.fin x ∈ cs) ∨ ∃ j c, acc = some (j, c) ∧ c ≠ .inf) →
    ∃ j c, selGo better n acc cs = some (j, c) ∧ c ≠ .inf := by
  induction cs with
  | nil =>
    intro n acc h
    rcases h with ⟨x, hx⟩ | ⟨j, c, hacc, hc⟩
    · simp at hx
    · exact ⟨j, c, hacc, hc⟩
  | cons c0 cs ih =>
    intro n acc h
    rw [selGo_cons]
    cases hacc : acc with
    | none =>
      show ∃ j c, selGo better (n + 1) (some (n, c0)) cs = some (j, c) ∧ c ≠ .inf
      rcases h with ⟨x, hx⟩ | ⟨j, c, haccs, hc⟩
      · rcases List.mem_cons.mp hx with hx0 | hxs
        · exact ih (n + 1) _ (Or.inr ⟨n, c0, rfl, by rw [← hx0]; simp⟩)
        · exact ih (n + 1) _ (Or.inl ⟨x, hxs⟩)
      · simp_all
    | some jb =>
      obtain ⟨j0, b0⟩ := jb
      show ∃ j c, selGo better (n + 1)
        (if better c0 b0 then some (n, c0) else some (j0, b0)) cs =
          some (j, c) ∧ c ≠ .inf
      by_cases hb : better c0 b0 = true
      · rw [if_pos hb]
        rcases h with ⟨x, hx⟩ | ⟨j, c, haccs, hc⟩
        · rcases List.mem_cons.mp hx with hx0 | hxs
          · exact ih (n + 1) _ (Or.inr ⟨n, c0, rfl, by rw [← hx0]; simp⟩)
          · exact ih (n + 1) _ (Or.inl ⟨x, hxs⟩)
        · refine ih (n + 1) _ (Or.inr ⟨n, c0, rfl, ?_⟩)
          intro hbad
          rw [hbad, hinf1 b0] at hb
          exact Bool.false_ne_true hb
      · rw [if_neg hb]
        rcases h with ⟨x, hx⟩ | ⟨j, c, haccs, hc⟩
        · rcases List.mem_cons.mp hx with hx0 | hxs
          · refine ih (n + 1) _ (Or.inr ⟨j0, b0, rfl, ?_⟩)
            intro hbad
            rw [← hx0, hbad] at hb
            exact hb (hinf2 x)
          · exact ih (n + 1) _ (Or.inl ⟨x, hxs⟩)
        · rw [hacc] at haccs
          refine ih (n + 1) _ (Or.inr ⟨j0, b0, rfl, ?_⟩)
          have : (j0, b0) = (j, c) := by
            injection haccs
          rw [show b0 = c from congrArg Prod.snd this]
          exact hc

/-- Coupling invariant between the loop state after consuming
`orig.take n` and the abstract selector's accumulator. -/
def Couple (p : Params) (orig : List (NormBatch × NormOut)) (n : ℕ)
    (st : LoopState) (acc : Option (ℕ × PFloat)) : Prop :=
  st.seedCtr = n ∧
  match acc with
  | none => st.bestOut = none
  | some (j, c) => j < n ∧ ∃ bo, orig[j]? = some bo ∧ HasBest p st bo.2 c ∧
      st.bestSeed = some (derivedSeed p.pyHash p.baseSeed j)

/-- The selection bookkeeping of the loop is exactly the abstract
first-seen-wins strict-improvement fold over the per-sample scores. -/
theorem runIters_selGo (p : Params) (orig : List (NormBatch × NormOut)) :
    ∀ (d : List (NormBatch × NormOut)) (n : ℕ) (acc : Option (ℕ × PFloat))
      (st : LoopState), orig.drop n = d → Couple p orig n st acc →
    Couple p orig (n + d.length) (runIters p st d)
      (selGo (betterP p) n acc (d.map (sampleScore p))) := by
  intro d
  induction d with
  | nil => intro n acc st _ hc; simpa [runIters, selGo] using hc
  | cons bo rest ih =>
    intro n acc st hdrop hc
    have hget : orig[n]? = some bo := by
      have h0 := List.getElem?_drop orig n 0
      rw [hdrop] at h0
      simpa using h0.symm
    have hdrop' : orig.drop (n + 1) = rest := by
      have := List.drop_drop 1 n orig
      rw [hdrop] at this
      simpa [Nat.add_comm] using this.symm
    have hseed : st.seedCtr = n := hc.1
    have hlen : n + (bo :: rest).length = (n + 1) + rest.length := by
      simp; omega
    rw [hlen, List.map_cons, selGo_cons]
    cases hacc : acc with
    | none =>
      have hnone : st.bestOut = none := by
        have h2 := hc.2
        rw [hacc] at h2
        exact h2
      have h1 := iterStep_none p st bo hnone
      have hstep : Couple p orig (n + 1) (iterStep p st bo)
          (some (n, sampleScore p bo)) :=
        ⟨by rw [iterStep_seedCtr, hseed], by omega, bo, hget, h1.1,
         by rw [h1.2, hseed]⟩
      show Couple p orig ((n + 1) + rest.length)
        (runIters p (iterStep p st bo) rest)
        (selGo (betterP p) (n + 1) (some (n, sampleScore p bo))
          (rest.map (sampleScore p)))
      exact ih (n + 1) _ (iterStep p st bo) hdrop' hstep
    | some jb =>
      obtain ⟨j, c⟩ := jb
      have hcs := hc.2
      rw [hacc] at hcs
      obtain ⟨hj, bo', hbo', hhas, hseed'⟩ := hcs
      show Couple p orig ((n + 1) + rest.length)
        (runIters p (iterStep p st bo) rest)
        (selGo (betterP p) (n + 1)
          (if betterP p (sampleScore p bo) c then some (n, sampleScore p bo)
           else some (j, c))
          (rest.map (sampleScore p)))
      by_cases hb : betterP p (sampleScore p bo) c = true
      · rw [if_pos hb]
        have h1 := iterStep_some_replace p st bo bo'.2 c hhas hb
        have hstep : Couple p orig (n + 1) (iterStep p st bo)
            (some (n, sampleScore p bo)) :=
          ⟨by rw [iterStep_seedCtr, hseed], by omega, bo, hget, h1.1,
           by rw [h1.2, hseed]⟩
        exact ih (n + 1) _ (iterStep p st bo) hdrop' hstep
      · rw [if_neg hb]
        have hbf : betterP p (sampleScore p bo) c = false :=
          eq_false_of_ne_true hb
        have h1 := iterStep_some_keep p st bo bo'.2 c hhas hbf
        have hstep : Couple p orig (n + 1) (iterStep p st bo)
            (some (j, c)) :=
          ⟨by rw [iterStep_seedCtr, hseed], by omega, bo', hbo', h1.1,
           by rw [h1.2, hseed']⟩
        exact ih (n + 1) _ (iterStep p st bo) hdrop' hstep


/-! ## Trace lemmas -/

/-- The per-iteration event block, starting from seed counter `k`. -/
def traceOf (p : Params) : ℕ → List (NormBatch × NormOut) → List Event
  | _, [] => []
  | k, bo :: rest =>
    Event.scoreLog (iterMetric p bo) (npMean bo.2.iptmptm) ::
    Event.iterPdb (derivedSeed p.pyHash p.baseSeed k) (npMean bo.2.iptmptm)
      bo.2 bo.1 ::
    traceOf p (k + 1) rest

/-- Index-annotate a list starting from `k`. -/
def withIdx {α : Type} : ℕ → List α → List (ℕ × α)
  | _, [] => []
  | k, a :: l => (k, a) :: withIdx (k + 1) l

/-- Project an `iterPdb` event to its (seed, confidence, output, batch). -/
def iterView (e : Event) : Option (Int × PFloat × NormOut × NormBatch) :=
  match e with
  | .iterPdb s c r f => some (s, c, r, f)
  | _ => none

def isBestPdbEvt (e : Event) : Bool :=
  match e with
  | .bestPdb _ _ _ _ _ => true
  | _ => false

def isPlddtJsonEvt (e : Event) : Bool :=
  match e with
  | .plddtJson _ _ _ _ => true
  | _ => false

theorem runIters_events (p : Params) (d : List (NormBatch × NormOut)) :
    ∀ st, (runIters p st d).events = st.events ++ traceOf p st.seedCtr d := by
  induction d with
  | nil => intro st; simp [runIters, traceOf]
  | cons bo rest ih =>
    intro st
    show (runIters p (iterStep p st bo) rest).events = _
    rw [ih (iterStep p st bo), iterStep_events, iterStep_seedCtr, traceOf]
    simp

theorem traceOf_iterView (p : Params) (d : List (NormBatch × NormOut)) :
    ∀ k, (traceOf p k d).filterMap iterView =
      (withIdx k d).map (fun ia =>
        (derivedSeed p.pyHash p.baseSeed ia.1, npMean ia.2.2.iptmptm,
         ia.2.2, ia.2.1)) := by
  induction d with
  | nil => intro k; simp [traceOf, withIdx]
  | cons bo rest ih =>
    intro k
    simp [traceOf, withIdx, List.filterMap_cons, iterView, ih (k + 1)]

theorem traceOf_no_best (p : Params) (d : List (NormBatch × NormOut)) :
    ∀ k, (traceOf p k d).filter isBestPdbEvt = [] := by
  induction d with
  | nil => intro k; simp [traceOf]
  | cons bo rest ih =>
    intro k
    simp [traceOf, List.filter_cons, isBestPdbEvt, ih (k + 1)]

theorem traceOf_no_plddt (p : Params) (d : List (NormBatch × NormOut)) :
    ∀ k, (traceOf p k d).filter isPlddtJsonEvt = [] := by
  induction d with
  | nil => intro k; simp [traceOf]
  | cons bo rest ih =>
    intro k
    simp [traceOf, List.filter_cons, isPlddtJsonEvt, ih (k + 1)]

theorem withIdx_map_fst {α : Type} (d : List α) :
    ∀ k, (withIdx k d).map Prod.fst = (List.range d.length).map (fun i => k + i) := by
  induction d with
  | nil => intro k; simp [withIdx]
  | cons a l ih =>
    intro k
    rw [withIdx, List.length_cons, List.range_succ_eq_map]
    simp [ih (k + 1), Function.comp]
    intro a _
    omega

/-! ## Evaluation helpers for concrete inputs -/

theorem ratSqrtFloor_spec (q : ℚ) (n : ℕ) (h1 : (n : ℚ) ^ 2 ≤ q)
    (h2 : q < ((n : ℚ) + 1) ^ 2) : ratSqrtFloor q = n := by
  have hfl1 : (n : ℤ) ^ 2 ≤ ⌊q⌋ := by
    rw [show ((n : ℤ) ^ 2) = ((n ^ 2 : ℕ) : ℤ) by push_cast; ring, Int.le_floor]
    exact_mod_cast h1
  have hfl2 : ⌊q⌋ < ((n + 1 : ℕ) : ℤ) ^ 2 := by
    have : ⌊q⌋ < (((n + 1) ^ 2 : ℕ) : ℤ) := by
      rw [Int.floor_lt]
      exact_mod_cast h2
    calc ⌊q⌋ < (((n + 1) ^ 2 : ℕ) : ℤ) := this
      _ = ((n + 1 : ℕ) : ℤ) ^ 2 := by push_cast; ring
  have h0 : (0 : ℤ) ≤ ⌊q⌋ := le_trans (by positivity) hfl1
  have heq : ((⌊q⌋.toNat : ℕ) : ℤ) = ⌊q⌋ := Int.toNat_of_nonneg h0
  have ht1 : n ^ 2 ≤ ⌊q⌋.toNat := by
    have h := hfl1
    rw [← heq] at h
    exact_mod_cast h
  have ht2 : ⌊q⌋.toNat < (n + 1) ^ 2 := by
    have h := hfl2
    rw [← heq] at h
    exact_mod_cast h
  have hs1 : Nat.sqrt ⌊q⌋.toNat < n + 1 :=
    Nat.sqrt_lt.mpr (by simpa [pow_two] using ht2)
  have hs2 : n ≤ Nat.sqrt ⌊q⌋.toNat :=
    Nat.le_sqrt.mpr (by simpa [pow_two] using ht1)
  rw [ratSqrtFloor]
  omega

theorem chunkThreshold_1024 : chunkThreshold 1024 40 false = 652 := by
  rw [chunkThreshold]
  exact ratSqrtFloor_spec _ 652 (by norm_num) (by norm_num)

theorem chunkThreshold_2048 : chunkThreshold 2048 40 false = 1305 := by
  rw [chunkThreshold]
  exact ratSqrtFloor_spec _ 1305 (by norm_num) (by norm_num)

theorem chunkThreshold_3072 : chunkThreshold 3072 40 false = 1957 := by
  rw [chunkThreshold]
  exact ratSqrtFloor_spec _ 1957 (by norm_num) (by norm_num)

theorem chunkThreshold_4096 : chunkThreshold 4096 40 false = 2610 := by
  rw [chunkThreshold]
  exact ratSqrtFloor_spec _ 2610 (by norm_num) (by norm_num)

theorem get_device_mem_cuda40 : get_device_mem ⟨true, 40⟩ "cuda:0" = 40 := by
  rw [get_device_mem]
  norm_num

theorem acs_500 : automatic_chunk_size 500 ⟨true, 40⟩ "cuda:0" false = (256, none) := by
  rw [automatic_chunk_size]
  rw [get_device_mem_cuda40, chunkThreshold_1024]
  norm_num

theorem acs_5000 : automatic_chunk_size 5000 ⟨true, 40⟩ "cuda:0" false = (4, some 256) := by
  rw [automatic_chunk_size]
  rw [get_device_mem_cuda40, chunkThreshold_1024, chunkThreshold_2048,
    chunkThreshold_3072, chunkThreshold_4096]
  norm_num

theorem acs_mono (s1 s2 : ℕ) (env : DeviceEnv) (device : String) (b : Bool)
    (h : s1 ≤ s2) :
    (automatic_chunk_size s2 env device b).1 ≤ (automatic_chunk_size s1 env device b).1 := by
  rw [automatic_chunk_size, automatic_chunk_size]
  split_ifs <;> simp_all <;> omega

/-! ## Claim theorems -/

/-- C5: `automatic_chunk_size` deterministically thresholds the sequence
length against `int(k * factor)` for `k ∈ {1024, 2048, 3072, 4096}` with
`factor = sqrt(memory_budget_GB/40 * (0.55*low_precision + 0.45)) * 0.95`,
selecting `(256, none)`, `(128, none)`, `(64, none)`, `(32, some 512)`,
`(4, some 256)` in order; `(500, 40GB, low_precision=False)` yields
`(256, none)` and `(5000, 40GB, low_precision=False)` yields
`(4, some 256)`; `chunk_size` is non-increasing in the sequence length for
fixed budget and flag; and an unavailable device memory budget falls back
to 40. -/
theorem C5_chunk_sizer :
    (∀ (seq_len : ℕ) (env : DeviceEnv) (device : String) (b : Bool),
      automatic_chunk_size seq_len env device b =
        (let mem := get_device_mem env device
         if seq_len < chunkThreshold 1024 mem b then (256, none)
         else if seq_len < chunkThreshold 2048 mem b then (128, none)
         else if seq_len < chunkThreshold 3072 mem b then (64, none)
         else if seq_len < chunkThreshold 4096 mem b then (32, some 512)
         else (4, some 256))) ∧
    (∀ (k : ℕ) (memGB : ℚ) (b : Bool), 0 ≤ memGB →
      (chunkThreshold k memGB b : ℤ) =
        ⌊(k : ℝ) * (Real.sqrt ((memGB : ℝ) / 40 *
          ((if b then (0.55 : ℝ) else 0) + 0.45)) * 0.95)⌋) ∧
    automatic_chunk_size 500 ⟨true, 40⟩ "cuda:0" false = (256, none) ∧
    automatic_chunk_size 5000 ⟨true, 40⟩ "cuda:0" false = (4, some 256) ∧
    (∀ (s1 s2 : ℕ) (env : DeviceEnv) (device : String) (b : Bool), s1 ≤ s2 →
      (automatic_chunk_size s2 env device b).1 ≤
        (automatic_chunk_size s1 env device b).1) ∧
    (∀ env : DeviceEnv, get_device_mem env "cpu" = 40) ∧
    (∀ (device : String) (m : ℚ), get_device_mem ⟨false, m⟩ device = 40) :=
  ⟨fun _ _ _ _ => rfl,
   chunkThreshold_eq_floor,
   acs_500,
   acs_5000,
   acs_mono,
   fun env => by rw [get_device_mem]; simp,
   fun device m => by rw [get_device_mem]; simp⟩

/-- Witness for C5: the hypotheses are satisfiable - the threshold/floor
bridge at `k = 1024`, budget 40GB, full precision, and the monotonicity
instance at `500 ≤ 5000`. -/
theorem C5_chunk_sizer_witness :
    (0 : ℚ) ≤ 40 ∧
    (chunkThreshold 1024 40 false : ℤ) =
      ⌊(1024 : ℝ) * (Real.sqrt ((40 : ℝ) / 40 *
        ((if false then (0.55 : ℝ) else 0) + 0.45)) * 0.95)⌋ ∧
    (500 : ℕ) ≤ 5000 ∧
    (automatic_chunk_size 5000 ⟨true, 40⟩ "cuda:0" false).1 ≤
      (automatic_chunk_size 500 ⟨true, 40⟩ "cuda:0" false).1 :=
  ⟨by norm_num,
   C5_chunk_sizer.2.1 1024 40 false (by norm_num),
   by norm_num,
   C5_chunk_sizer.2.2.2.2.1 500 5000 ⟨true, 40⟩ "cuda:0" false (by norm_num)⟩

theorem betterP_irrefl (p : Params) (a : PFloat) : betterP p a a = false := by
  cases h : p.rdcRows? <;> simp [betterP, h, PFloat.lt_irrefl]

theorem betterP_asymm (p : Params) {a b : PFloat} (h : betterP p a b = true) :
    betterP p b a = false := by
  cases hr : p.rdcRows? <;> rw [betterP, hr] at h ⊢ <;> exact PFloat.lt_asymm h

theorem bestScore_HasBest (p : Params) (st : LoopState) (s : PFloat)
    (h : bestScore p st = some s) : ∃ o, HasBest p st o s := by
  rw [bestScore] at h
  cases hb : st.bestOut with
  | none => rw [hb] at h; cases h
  | some o =>
    rw [hb] at h
    refine ⟨o, hb, ?_⟩
    cases hr : p.rdcRows? with
    | none => rw [hr] at h; injection h
    | some rows => rw [hr] at h; exact h

theorem HasBest_bestScore (p : Params) (st : LoopState) (o : NormOut)
    (s : PFloat) (h : HasBest p st o s) : bestScore p st = some s := by
  obtain ⟨h1, h2⟩ := h
  rw [bestScore, h1]
  cases hr : p.rdcRows? with
  | none => rw [hr] at h2; rw [h2]
  | some rows => rw [hr] at h2; exact h2

theorem selGo_eq_none (better : PFloat → PFloat → Bool) (cs : List PFloat) :
    ∀ (n : ℕ) (acc : Option (ℕ × PFloat)),
    selGo better n acc cs = none → acc = none ∧ cs = [] := by
  induction cs with
  | nil => intro n acc h; exact ⟨h, rfl⟩
  | cons c0 cs ih =>
    intro n acc h
    rw [selGo_cons] at h
    cases hacc : acc with
    | none =>
      rw [hacc] at h
      have := (ih (n + 1) _ h).1
      cases this
    | some jb =>
      rw [hacc] at h
      have h2 : (if better c0 jb.2 then some (n, c0) else some jb) =
          (none : Option (ℕ × PFloat)) := (ih (n + 1) _ h).1
      by_cases hb : better c0 jb.2 = true
      · rw [if_pos hb] at h2; cases h2
      · rw [if_neg hb] at h2; cases h2

/-- The per-iteration seeds appearing in the run's structure-file writes,
in order. -/
def runSeeds (p : Params) (samples : List (NormBatch × NormOut)) : List Int :=
  ((runIters p initState samples).events.filterMap iterView).map (fun v => v.1)

theorem runSeeds_spec (p : Params) (samples : List (NormBatch × NormOut)) :
    runSeeds p samples =
      (List.range samples.length).map (fun i => derivedSeed p.pyHash p.baseSeed i) := by
  rw [runSeeds, runIters_events]
  show ((initState.events ++ traceOf p initState.seedCtr samples).filterMap
    iterView).map (fun v => v.1) = _
  rw [show initState.events = [] from rfl, List.nil_append,
    show initState.seedCtr = 0 from rfl, traceOf_iterView, List.map_map]
  have : ((fun v : Int × PFloat × NormOut × NormBatch => v.1) ∘
      (fun ia : ℕ × NormBatch × NormOut =>
        (derivedSeed p.pyHash p.baseSeed ia.1, npMean ia.2.2.iptmptm,
         ia.2.2, ia.2.1))) =
      (fun i => derivedSeed p.pyHash p.baseSeed i) ∘ Prod.fst := rfl
  rw [this, ← List.map_map, withIdx_map_fst, List.map_map]
  apply List.map_congr_left
  intro i _
  simp

/-- C9: the derived seed of iteration `i` is
`hash((base_seed, i)) % 100000`; the seeds used by a run are exactly that
function of `(base_seed, iteration_index)` - a deterministic function of
the two integers, so two runs with the same base seed on the same
platform (the same `hash` function) use identical seeds at every
iteration, independent of any other run state. -/
theorem C9_seed_derivation :
    (∀ (h : Int → Int → Int) (base : Int) (i : ℕ),
      derivedSeed h base i = h base (i : Int) % 100000) ∧
    (∀ (p : Params) (samples : List (NormBatch × NormOut)),
      runSeeds p samples =
        (List.range samples.length).map
          (fun i => derivedSeed p.pyHash p.baseSeed i)) ∧
    (∀ (p1 p2 : Params) (samples1 samples2 : List (NormBatch × NormOut))
       (i : ℕ), p1.pyHash = p2.pyHash → p1.baseSeed = p2.baseSeed →
      i < samples1.length → i < samples2.length →
      (runSeeds p1 samples1)[i]? = (runSeeds p2 samples2)[i]?) := by
  refine ⟨fun _ _ _ => rfl, runSeeds_spec, ?_⟩
  intro p1 p2 samples1 samples2 i hh hb h1 h2
  rw [runSeeds_spec, runSeeds_spec, List.getElem?_map, List.getElem?_map,
    List.getElem?_range h1, List.getElem?_range h2]
  simp [derivedSeed, hh, hb]

/-- Witness for C9's determinism clause: two one-sample runs with the
same hash and base seed but different samples use the same seed at
iteration 0. -/
theorem C9_seed_derivation_witness :
    (fun (a b : Int) => a + b) = (fun (a b : Int) => a + b) ∧
    (7 : Int) = 7 ∧
    (0 : ℕ) < 1 ∧ (0 : ℕ) < 1 ∧
    (runSeeds
        { pyHash := fun a b => a + b, baseSeed := 7, cutoff := 25,
          ca_idx := 1, atomOrder := fun _ => none, rdcRows? := none,
          relax := false, isMultimer := false, paramPostfix := "w" }
        [(⟨[], []⟩, ⟨[], [], []⟩)])[0]? =
      (runSeeds
        { pyHash := fun a b => a + b, baseSeed := 7, cutoff := 25,
          ca_idx := 1, atomOrder := fun _ => none, rdcRows? := some [],
          relax := true, isMultimer := true, paramPostfix := "v" }
        [(⟨[[1]], [2]⟩, ⟨[], [.fin 1], [.fin 1]⟩)])[0]? :=
  ⟨rfl, rfl, Nat.one_pos, Nat.one_pos,
   C9_seed_derivation.2.2 _ _ _ _ 0 rfl rfl Nat.one_pos Nat.one_pos⟩

/-- C1: in the crosslink variant the selection is driven exclusively by
the mean `iptm+ptm` confidence (strictly-higher-wins, first seen kept on
ties): the winning index, score and seed of the whole run are exactly the
result of folding the strict `>` comparison over the per-iteration
confidence means alone - the computed satisfaction ratio (which depends
on the batch masks, the coordinates and the cutoff) cannot influence
which sample becomes the running best. -/
theorem C1_confidence_only_selection (p : Params)
    (samples : List (NormBatch × NormOut)) (hv : p.rdcRows? = none) :
    match selGo (fun c b => PFloat.lt b c) 0 none
        (samples.map (fun bo => npMean bo.2.iptmptm)) with
    | none => samples = [] ∧ (runIters p initState samples).bestOut = none
    | some (j, c) => ∃ bo, samples[j]? = some bo ∧
        (runIters p initState samples).bestOut = some bo.2 ∧
        (runIters p initState samples).bestIptm = c ∧
        (runIters p initState samples).bestSeed =
          some (derivedSeed p.pyHash p.baseSeed j) := by
  have hbet : betterP p = fun c b => PFloat.lt b c := by
    funext c b
    rw [betterP, hv]
  have hsc : sampleScore p = fun bo => npMean bo.2.iptmptm := by
    funext bo
    rw [sampleScore, hv]
  have hc := runIters_selGo p samples samples 0 none initState (by simp)
    ⟨rfl, rfl⟩
  rw [hbet, hsc] at hc
  cases hs : selGo (fun c b => PFloat.lt b c) 0 none
      (samples.map (fun bo => npMean bo.2.iptmptm)) with
  | none =>
    have hn := selGo_eq_none _ _ _ _ hs
    have hmap : samples = [] := by
      have := hn.2
      exact List.map_eq_nil_iff.mp this
    rw [hs] at hc
    have h2 := hc.2
    exact ⟨hmap, h2⟩
  | some jc =>
    obtain ⟨j, c⟩ := jc
    rw [hs] at hc
    obtain ⟨-, -, bo, hbo, hhas, hseed⟩ := hc
    obtain ⟨h1, h2⟩ := hhas
    rw [hv] at h2
    exact ⟨bo, hbo, h1, h2, hseed⟩

/-- Shared concrete fixture: a crosslink-variant parameter set. -/
def pW1 : Params :=
  { pyHash := fun a b => a + b, baseSeed := 3, cutoff := 25, ca_idx := 1,
    atomOrder := fun _ => none, rdcRows? := none, relax := false,
    isMultimer := false, paramPostfix := "w1" }

/-- Shared concrete fixture: an empty feature batch (no residues). -/
def bW : NormBatch := ⟨[], []⟩

/-- Shared concrete fixture: an output with confidence mean 1. -/
def oW1 : NormOut := ⟨[], [.fin 1], [.fin 1]⟩

/-- Shared concrete fixture: an output with confidence mean 0. -/
def oW0 : NormOut := ⟨[], [.fin 0], [.fin 0]⟩

/-- Shared concrete fixture: a two-sample crosslink run, higher
confidence first. -/
def samplesW1 : List (NormBatch × NormOut) := [(bW, oW1), (bW, oW0)]

/-- Witness for C1: on the concrete two-sample crosslink run the selector
folds to index 0 with score 1, and the loop's best is exactly that
sample. -/
theorem C1_confidence_only_selection_witness :
    pW1.rdcRows? = none ∧
    (∃ bo, samplesW1[0]? = some bo ∧
      (runIters pW1 initState samplesW1).bestOut = some bo.2 ∧
      (runIters pW1 initState samplesW1).bestIptm = .fin 1 ∧
      (runIters pW1 initState samplesW1).bestSeed =
        some (derivedSeed pW1.pyHash pW1.baseSeed 0)) := by
  refine ⟨rfl, ?_⟩
  have h := C1_confidence_only_selection pW1 samplesW1 rfl
  have hsel : selGo (fun c b => PFloat.lt b c) 0 none
      (samplesW1.map (fun bo => npMean bo.2.iptmptm)) = some (0, .fin 1) := by
    simp [samplesW1, oW1, oW0, bW, npMean, selGo_cons, selGo_nil, PFloat.lt]
  rw [hsel] at h
  exact h

/-- C2: (i) across consecutive iterations the running best score never
gets strictly worse under the active strategy's ordering
(`betterP p sk sk1 = false` says the old best is not strictly better than
the new one - confidence can only go up, Q-factor can only go down);
(ii) when the new sample is not strictly better, the running best sample,
its seed and its score are all unchanged; (iii) in particular a tie
(equal score) keeps the first-seen sample. -/
theorem C2_monotone_strict_selection :
    (∀ (p : Params) (samples : List (NormBatch × NormOut)) (k : ℕ)
       (sk sk1 : PFloat),
      bestScore p (runIters p initState (samples.take k)) = some sk →
      bestScore p (runIters p initState (samples.take (k + 1))) = some sk1 →
      betterP p sk sk1 = false) ∧
    (∀ (p : Params) (st : LoopState) (bo : NormBatch × NormOut)
       (o : NormOut) (b : PFloat), HasBest p st o b →
      betterP p (sampleScore p bo) b = false →
      HasBest p (iterStep p st bo) o b ∧
        (iterStep p st bo).bestSeed = st.bestSeed) ∧
    (∀ (p : Params) (st : LoopState) (bo : NormBatch × NormOut)
       (o : NormOut) (b : PFloat), HasBest p st o b →
      sampleScore p bo = b →
      HasBest p (iterStep p st bo) o b ∧
        (iterStep p st bo).bestSeed = st.bestSeed) := by
  refine ⟨?_, iterStep_some_keep, ?_⟩
  · intro p samples k sk sk1 hk hk1
    rw [runIters_take_succ] at hk1
    cases hg : samples[k]? with
    | none =>
      rw [hg] at hk1
      have : sk1 = sk := by
        rw [hk] at hk1
        injection hk1 with h
        rw [h]
      rw [this]
      exact betterP_irrefl p sk
    | some bo =>
      rw [hg] at hk1
      obtain ⟨o, ho⟩ := bestScore_HasBest p _ sk hk
      by_cases hb : betterP p (sampleScore p bo) sk = true
      · have hrep := iterStep_some_replace p _ bo o sk ho hb
        have := HasBest_bestScore p _ _ _ hrep.1
        rw [this] at hk1
        have hs : sk1 = sampleScore p bo := by
          injection hk1 with h
          rw [h]
        rw [hs]
        exact betterP_asymm p hb
      · have hkeep := iterStep_some_keep p _ bo o sk ho (eq_false_of_ne_true hb)
        have := HasBest_bestScore p _ _ _ hkeep.1
        rw [this] at hk1
        have hs : sk1 = sk := by
          injection hk1 with h
          rw [h]
        rw [hs]
        exact betterP_irrefl p sk
  · intro p st bo o b hhas htie
    exact iterStep_some_keep p st bo o b hhas (by rw [htie]; exact betterP_irrefl p b)

/-- Witness for C2: on the concrete crosslink run, the best score after
iteration 1 (namely 1) is not beaten by the best score after iteration 2
(still 1: the weaker second sample did not replace it); a non-better
sample leaves a held best untouched; and a tied sample leaves a held
best untouched. -/
theorem C2_monotone_strict_selection_witness :
    (bestScore pW1 (runIters pW1 initState (samplesW1.take 1)) =
        some (.fin 1) ∧
      bestScore pW1 (runIters pW1 initState (samplesW1.take 2)) =
        some (.fin 1) ∧
      betterP pW1 (.fin 1) (.fin 1) = false) ∧
    (HasBest pW1 (iterStep pW1 initState (bW, oW1)) oW1 (.fin 1) ∧
      betterP pW1 (sampleScore pW1 (bW, oW0)) (.fin 1) = false ∧
      HasBest pW1 (iterStep pW1 (iterStep pW1 initState (bW, oW1)) (bW, oW0))
        oW1 (.fin 1) ∧
      (iterStep pW1 (iterStep pW1 initState (bW, oW1)) (bW, oW0)).bestSeed =
        (iterStep pW1 initState (bW, oW1)).bestSeed) ∧
    (sampleScore pW1 (bW, oW1) = .fin 1 ∧
      HasBest pW1 (iterStep pW1 (iterStep pW1 initState (bW, oW1)) (bW, oW1))
        oW1 (.fin 1)) := by
  have hb1 : HasBest pW1 (iterStep pW1 initState (bW, oW1)) oW1 (.fin 1) := by
    constructor
    · simp [iterStep, pW1, initState, bW, oW1, npMean]
    · simp [pW1, iterStep, initState, bW, oW1, npMean]
  have hsc0 : sampleScore pW1 (bW, oW0) = .fin 0 := by
    simp [sampleScore, pW1, oW0, npMean]
  have hsc1 : sampleScore pW1 (bW, oW1) = .fin 1 := by
    simp [sampleScore, pW1, oW1, npMean]
  have hnb : betterP pW1 (sampleScore pW1 (bW, oW0)) (.fin 1) = false := by
    rw [hsc0]
    simp [betterP, pW1, PFloat.lt]
  have h1 : bestScore pW1 (runIters pW1 initState (samplesW1.take 1)) =
      some (.fin 1) := by
    have : samplesW1.take 1 = [(bW, oW1)] := rfl
    rw [this]
    exact HasBest_bestScore _ _ _ _ hb1
  have hkeep := C2_monotone_strict_selection.2.1 pW1
    (iterStep pW1 initState (bW, oW1)) (bW, oW0) oW1 (.fin 1) hb1 hnb
  have h2 : bestScore pW1 (runIters pW1 initState (samplesW1.take 2)) =
      some (.fin 1) := by
    have : samplesW1.take 2 = [(bW, oW1), (bW, oW0)] := rfl
    rw [this]
    exact HasBest_bestScore _ _ _ _ hkeep.1
  refine ⟨⟨h1, h2, C2_monotone_strict_selection.1 pW1 samplesW1 1 _ _ h1 h2⟩,
    ⟨hb1, hnb, hkeep.1, hkeep.2⟩,
    ⟨hsc1, (C2_monotone_strict_selection.2.2 pW1
      (iterStep pW1 initState (bW, oW1)) (bW, oW1) oW1 (.fin 1) hb1 hsc1).1⟩⟩

/-- Shared concrete fixture: an output whose `iptm+ptm` is NaN. -/
def oWnan : NormOut := ⟨[], [.nan], [.nan]⟩

/-- Shared concrete fixture: RDC parameter set whose single record has an
unresolvable atom name. -/
def pWrdc : Params :=
  { pyHash := fun a b => a + b, baseSeed := 3, cutoff := 25, ca_idx := 1,
    atomOrder := fun s =>
      if s = "N" then some 0 else if s = "CA" then some 1
      else if s = "H" then some 2 else none,
    rdcRows? := some [⟨1, "QQ", "H", 1⟩], relax := false,
    isMultimer := false, paramPostfix := "wr" }

/-- Counterexample to C10's unconditional-install clause: in this
one-iteration RDC run the first sample is never installed as the running
best - the loop body raises at the scoring call, before the
`best_out is None` branch is ever reached - and the run ends in the
uncaught error with no best at all, not with the first sample as final
best. -/
theorem C10_rdc_no_install_counterexample :
    initState.bestOut = none ∧
    iterStepRun pWrdc initState (bW, oW1) = none ∧
    runItersRun pWrdc (some initState) [(bW, oW1)] = none ∧
    runMainRun pWrdc [(bW, oW1)] = none :=
  ⟨rfl, rfl, rfl, rfl⟩

/-- C10 amended: in the crosslink variant the first iteration installs
its sample as the running best unconditionally (the `best_out is None`
branch bypasses the score comparison), and consequently a first sample
whose mean `iptm+ptm` confidence is NaN is never replaced by any later
sample, remaining the final best of the whole run; in the RDC variant
the loop body raises at the scoring call before the install, so no
iteration ever installs a best and no RDC run ends with any best
sample. -/
theorem C10_first_install_crosslink_rdc_crash :
    (∀ (p : Params) (st : LoopState) (bo : NormBatch × NormOut),
      p.rdcRows? = none → st.bestOut = none →
      iterStepRun p st bo = some (iterStep p st bo) ∧
      (iterStep p st bo).bestOut = some bo.2) ∧
    (∀ (p : Params) (bo : NormBatch × NormOut)
       (rest : List (NormBatch × NormOut)), p.rdcRows? = none →
      npMean bo.2.iptmptm = .nan →
      runItersRun p (some initState) (bo :: rest) =
        some (runIters p initState (bo :: rest)) ∧
      (runIters p initState (bo :: rest)).bestOut = some bo.2 ∧
      (runIters p initState (bo :: rest)).bestSeed =
        some (derivedSeed p.pyHash p.baseSeed 0)) ∧
    (∀ (p : Params) (rows : List RDCRow) (st : LoopState)
       (bo : NormBatch × NormOut), p.rdcRows? = some rows →
      iterStepRun p st bo = none) := by
  refine ⟨?_, ?_, iterStepRun_rdc⟩
  · intro p st bo hv h
    exact ⟨iterStepRun_crosslink p st bo hv, (iterStep_none p st bo h).1.1⟩
  · intro p bo rest hv hnan
    have h0 := iterStep_none p initState bo rfl
    have hscore : sampleScore p bo = .nan := by
      rw [sampleScore, hv, hnan]
    have hall : ∀ x ∈ rest, betterP p (sampleScore p x) (sampleScore p bo) = false := by
      intro x _
      rw [hscore, betterP, hv]
      exact PFloat.lt_nan_left _
    have hkeep := runIters_keep p rest (iterStep p initState bo) bo.2
      (sampleScore p bo) h0.1 hall
    refine ⟨runItersRun_crosslink p (bo :: rest) hv initState, ?_, ?_⟩
    · show (runIters p (iterStep p initState bo) rest).bestOut = some bo.2
      exact hkeep.1.1
    · show (runIters p (iterStep p initState bo) rest).bestSeed = _
      rw [hkeep.2, h0.2]
      rfl

/-- Witness for C10 (amended): the empty-best state installs the
NaN-confidence first sample, which survives a strictly positive later
sample; the concrete RDC iteration raises instead of installing. -/
theorem C10_first_install_crosslink_rdc_crash_witness :
    (pW1.rdcRows? = none ∧ initState.bestOut = none ∧
      iterStepRun pW1 initState (bW, oWnan) =
        some (iterStep pW1 initState (bW, oWnan)) ∧
      (iterStep pW1 initState (bW, oWnan)).bestOut = some oWnan) ∧
    (npMean oWnan.iptmptm = .nan ∧
      runItersRun pW1 (some initState) [(bW, oWnan), (bW, oW1)] =
        some (runIters pW1 initState [(bW, oWnan), (bW, oW1)]) ∧
      (runIters pW1 initState [(bW, oWnan), (bW, oW1)]).bestOut = some oWnan) ∧
    (pWrdc.rdcRows? = some [⟨1, "QQ", "H", 1⟩] ∧
      iterStepRun pWrdc initState (bW, oW1) = none) := by
  have hnan : npMean oWnan.iptmptm = .nan := by
    simp [oWnan, npMean]
  have h1 := C10_first_install_crosslink_rdc_crash.1 pW1 initState (bW, oWnan)
    rfl rfl
  have h2 := C10_first_install_crosslink_rdc_crash.2.1 pW1 (bW, oWnan)
    [(bW, oW1)] rfl hnan
  exact ⟨⟨rfl, rfl, h1.1, h1.2⟩, ⟨hnan, h2.1, h2.2.1⟩,
    ⟨rfl, C10_first_install_crosslink_rdc_crash.2.2 pWrdc [⟨1, "QQ", "H", 1⟩]
      initState (bW, oW1) rfl⟩⟩

/-- Characterization of a crosslink-variant run whose confidence fold
settles on `(j, c)`. -/
theorem crosslink_run_char (p : Params) (samples : List (NormBatch × NormOut))
    (hv : p.rdcRows? = none) (j : ℕ) (c : PFloat)
    (hs : selGo (fun c b => PFloat.lt b c) 0 none
      (samples.map (fun bo => npMean bo.2.iptmptm)) = some (j, c)) :
    ∃ bo, samples[j]? = some bo ∧
      (runIters p initState samples).bestOut = some bo.2 ∧
      (runIters p initState samples).bestIptm = c ∧
      (runIters p initState samples).bestSeed =
        some (derivedSeed p.pyHash p.baseSeed j) := by
  have hbet : betterP p = fun c b => PFloat.lt b c := by
    funext c b
    rw [betterP, hv]
  have hsc : sampleScore p = fun bo => npMean bo.2.iptmptm := by
    funext bo
    rw [sampleScore, hv]
  have hc := runIters_selGo p samples samples 0 none initState (by simp)
    ⟨rfl, rfl⟩
  rw [hbet, hsc, hs] at hc
  obtain ⟨-, -, bo, hbo, hhas, hseed⟩ := hc
  obtain ⟨h1, h2⟩ := hhas
  rw [hv] at h2
  exact ⟨bo, hbo, h1, h2, hseed⟩

theorem satisfiedXl_le_totalXl (cutoff : ℚ) (ca : List Vec3) (b : NormBatch) :
    satisfiedXl cutoff ca b ≤ totalXl b := by
  rw [satisfiedXl, totalXl]
  have hle : List.countP
      (fun ij : ℕ × ℕ => xlFlag b ij.1 ij.2 && interfaceFlag b ij.1 ij.2 &&
        decide (0 ≤ cutoff ∧
          distSq (ca.getD ij.1 (0, 0, 0)) (ca.getD ij.2 (0, 0, 0)) ≤ cutoff ^ 2))
      (allPairs (nRes b)) ≤
      List.countP (fun ij : ℕ × ℕ => xlFlag b ij.1 ij.2 && interfaceFlag b ij.1 ij.2)
        (allPairs (nRes b)) :=
    List.countP_mono_left (fun ij _ h => by simp only [Bool.and_eq_true] at h ⊢; exact h.1)
  have hq : ((List.countP
      (fun ij : ℕ × ℕ => xlFlag b ij.1 ij.2 && interfaceFlag b ij.1 ij.2 &&
        decide (0 ≤ cutoff ∧
          distSq (ca.getD ij.1 (0, 0, 0)) (ca.getD ij.2 (0, 0, 0)) ≤ cutoff ^ 2))
      (allPairs (nRes b)) : ℕ) : ℚ) ≤
      ((List.countP (fun ij : ℕ × ℕ => xlFlag b ij.1 ij.2 && interfaceFlag b ij.1 ij.2)
        (allPairs (nRes b)) : ℕ) : ℚ) := by exact_mod_cast hle
  linarith

/-- C4: a sample with zero interface crosslinked pairs gets satisfaction
ratio NaN (the `0/0` sentinel, not an exception - the embedding is a
total function); and the sample remains fully eligible for selection:
the batch-side crosslink data has no effect on the best (two crosslink
runs with the same outputs but arbitrary batches select identically), and
a zero-pair sample on which the confidence fold settles still becomes the
running best. -/
theorem C4_zero_crosslinks_nan_eligible :
    (∀ (cutoff : ℚ) (ca : List Vec3) (b : NormBatch), totalXl b = 0 →
      satisfactionRatio cutoff ca b = .nan) ∧
    (∀ (p : Params) (samples samples' : List (NormBatch × NormOut)),
      p.rdcRows? = none → samples.map Prod.snd = samples'.map Prod.snd →
      (runIters p initState samples).bestOut =
        (runIters p initState samples').bestOut ∧
      (runIters p initState samples).bestIptm =
        (runIters p initState samples').bestIptm ∧
      (runIters p initState samples).bestSeed =
        (runIters p initState samples').bestSeed) ∧
    (∀ (p : Params) (samples : List (NormBatch × NormOut)) (k : ℕ)
       (b : NormBatch) (o : NormOut) (c : PFloat), p.rdcRows? = none →
      samples[k]? = some (b, o) → totalXl b = 0 →
      selGo (fun c b => PFloat.lt b c) 0 none
        (samples.map (fun bo => npMean bo.2.iptmptm)) = some (k, c) →
      (runIters p initState samples).bestOut = some o) := by
  refine ⟨?_, ?_, ?_⟩
  · intro cutoff ca b ht
    have hs : satisfiedXl cutoff ca b = 0 := by
      have h1 := satisfiedXl_le_totalXl cutoff ca b
      have h2 : (0 : ℚ) ≤ satisfiedXl cutoff ca b := by
        rw [satisfiedXl]
        positivity
      rw [ht] at h1
      linarith
    rw [satisfactionRatio]
    simp [ht, hs]
  · intro p samples samples' hv hmap
    have hconf : samples.map (fun bo => npMean bo.2.iptmptm) =
        samples'.map (fun bo => npMean bo.2.iptmptm) := by
      have h1 : samples.map (fun bo => npMean bo.2.iptmptm) =
          (samples.map Prod.snd).map (fun o => npMean o.iptmptm) := by
        rw [List.map_map]; rfl
      have h2 : samples'.map (fun bo => npMean bo.2.iptmptm) =
          (samples'.map Prod.snd).map (fun o => npMean o.iptmptm) := by
        rw [List.map_map]; rfl
      rw [h1, h2, hmap]
    cases hs : selGo (fun c b => PFloat.lt b c) 0 none
        (samples.map (fun bo => npMean bo.2.iptmptm)) with
    | none =>
      have hn := selGo_eq_none _ _ _ _ hs
      have he : samples = [] := List.map_eq_nil_iff.mp hn.2
      have he' : samples' = [] := by
        have : samples'.map (fun bo => npMean bo.2.iptmptm) = [] := by
          rw [← hconf, hn.2]
        exact List.map_eq_nil_iff.mp this
      rw [he, he']
      exact ⟨rfl, rfl, rfl⟩
    | some jc =>
      obtain ⟨j, c⟩ := jc
      obtain ⟨bo, hbo, h1, h2, h3⟩ := crosslink_run_char p samples hv j c hs
      obtain ⟨bo', hbo', h1', h2', h3'⟩ := crosslink_run_char p samples' hv j c
        (by rw [← hconf, hs])
      have hsnd : bo.2 = bo'.2 := by
        have e1 : (samples.map Prod.snd)[j]? = some bo.2 := by
          rw [List.getElem?_map, hbo]; rfl
        have e2 : (samples'.map Prod.snd)[j]? = some bo'.2 := by
          rw [List.getElem?_map, hbo']; rfl
        rw [hmap] at e1
        rw [e2] at e1
        injection e1 with e1
        rw [e1]
      rw [h1, h1', h2, h2', h3, h3', hsnd]
      exact ⟨rfl, rfl, rfl⟩
  · intro p samples k b o c hv hk _ hs
    obtain ⟨bo, hbo, h1, -, -⟩ := crosslink_run_char p samples hv k c hs
    rw [hk] at hbo
    injection hbo with hbo
    rw [h1, ← hbo]

/-- Witness for C4: the empty batch has zero interface crosslinked pairs
and NaN ratio; the two-sample run keeps its selection when batches are
replaced; and the winning zero-pair sample of the concrete run does
become the best. -/
theorem C4_zero_crosslinks_nan_eligible_witness :
    (totalXl bW = 0 ∧ satisfactionRatio 25 [] bW = .nan) ∧
    (pW1.rdcRows? = none ∧
      samplesW1.map Prod.snd =
        ([(⟨[[1]], [2]⟩, oW1), (⟨[[1]], [2]⟩, oW0)] :
          List (NormBatch × NormOut)).map Prod.snd ∧
      (runIters pW1 initState samplesW1).bestOut =
        (runIters pW1 initState [(⟨[[1]], [2]⟩, oW1), (⟨[[1]], [2]⟩, oW0)]).bestOut) ∧
    (samplesW1[0]? = some (bW, oW1) ∧ totalXl bW = 0 ∧
      selGo (fun c b => PFloat.lt b c) 0 none
        (samplesW1.map (fun bo => npMean bo.2.iptmptm)) = some (0, .fin 1) ∧
      (runIters pW1 initState samplesW1).bestOut = some oW1) := by
  have ht : totalXl bW = 0 := by
    simp [totalXl, bW, nRes, allPairs]
  have hsel : selGo (fun c b => PFloat.lt b c) 0 none
      (samplesW1.map (fun bo => npMean bo.2.iptmptm)) = some (0, .fin 1) := by
    simp [samplesW1, oW1, oW0, bW, npMean, selGo_cons, selGo_nil, PFloat.lt]
  refine ⟨⟨ht, C4_zero_crosslinks_nan_eligible.1 25 [] bW ht⟩,
    ⟨rfl, rfl,
     (C4_zero_crosslinks_nan_eligible.2.1 pW1 samplesW1
       [(⟨[[1]], [2]⟩, oW1), (⟨[[1]], [2]⟩, oW0)] rfl rfl).1⟩,
    ⟨rfl, ht, hsel,
     C4_zero_crosslinks_nan_eligible.2.2 pW1 samplesW1 0 bW oW1 (.fin 1)
       rfl rfl ht hsel⟩⟩

/-- A row whose `try` block fails (unknown atom name, or a residue/atom
index that `npGet` rejects) resolves to nothing. -/
theorem resolveRow_skip (atomOrder : String → Option ℕ)
    (coords : List (List Vec3)) (r : RDCRow)
    (h : atomOrder r.atom1 = none ∨ atomOrder r.atom2 = none ∨
      npGet coords (r.residue - 1) = none) :
    resolveRow atomOrder coords r = none := by
  rcases h with h | h | h
  · simp [resolveRow, h]
  · cases ha1 : atomOrder r.atom1 <;> simp [resolveRow, ha1, h]
  · cases ha1 : atomOrder r.atom1 <;> cases ha2 : atomOrder r.atom2 <;>
      simp [resolveRow, ha1, ha2, h]

/-- C6: the program never reaches the silent-skip logic: every call
`main` makes to `compute_q_factor` (line 245) passes the numpy
`final_atom_positions` array, and the missing `.detach` attribute raises
AttributeError before any row of the table is examined.  No record is
ever skipped (or processed), and the error propagates uncaught, killing
the run - so the claimed no-error best-effort policy never executes.
The first conjunct evaluates the call on every coordinate array, table
and vocabulary; the rest evaluate a whole concrete RDC run at the
failing input: it dies inside its first iteration with nothing scored
and nothing written.  (The `try`-block skip logic the claim describes
exists textually at lines 228-237 and is embedded by
`resolveRow`/`computeQFactor`, but it is dead code as called.) -/
theorem C6_rdc_call_raises_before_any_row :
    (∀ (coords : List (List Vec3)) (atomOrder : String → Option ℕ)
       (rows : List RDCRow),
      compute_q_factor (ArrayVal.numpy coords) atomOrder rows = none) ∧
    iterStepRun pWrdc initState (bW, oW1) = none ∧
    runItersRun pWrdc (some initState) [(bW, oW1), (bW, oW0)] = none ∧
    runMainRun pWrdc [(bW, oW1), (bW, oW0)] = none :=
  ⟨fun _ _ _ => rfl, rfl, rfl, rfl⟩

/-- C3: the program never reports any Q-factor, infinite or otherwise:
`compute_q_factor`'s first statement invokes `.detach()` on the numpy
coordinates `main` passes it, raising AttributeError before the row
loop, the selection comparison and every write - at the claim's input (a
sample whose only record has an unresolvable atom name) the run dies
instead of reporting `inf` and choosing a best.  The last two conjuncts
record what the unreachable row loop would have produced for the
zero-survivor table. -/
theorem C3_rdc_scoring_crashes_before_reporting :
    (∀ (coords : List (List Vec3)) (atomOrder : String → Option ℕ)
       (rows : List RDCRow),
      compute_q_factor (ArrayVal.numpy coords) atomOrder rows = none) ∧
    iterStepRun pWrdc initState (bW, oW0) = none ∧
    runMainRun pWrdc [(bW, oW0)] = none ∧
    rdcSurvivors pWrdc.atomOrder oW0.atomPos [⟨1, "QQ", "H", 1⟩] = [] ∧
    computeQFactor pWrdc.atomOrder oW0.atomPos [⟨1, "QQ", "H", 1⟩] = .inf :=
  ⟨fun _ _ _ => rfl, rfl, rfl, rfl, rfl⟩

/-- Project a `bestPdb` event to the (output, feature batch) pair the
final structure file is built from. -/
def bestPdbView (e : Event) : Option (NormOut × NormBatch) :=
  match e with
  | .bestPdb _ _ _ r f => some (r, f)
  | _ => none

theorem traceOf_bestPdbView (p : Params) (d : List (NormBatch × NormOut)) :
    ∀ k, (traceOf p k d).filterMap bestPdbView = [] := by
  induction d with
  | nil => intro k; simp [traceOf]
  | cons bo rest ih =>
    intro k
    simp [traceOf, List.filterMap_cons, bestPdbView, ih (k + 1)]

/-- The complete side-effect trace of a completed run: the per-iteration
blocks, then (under `relax`) the best-structure write built from the best
output and the surviving `batch` binding, then the JSON summaries. -/
theorem runMain_trace (p : Params) (samples : List (NormBatch × NormOut))
    (h : samples ≠ []) :
    ∃ o, (runIters p initState samples).bestOut = some o ∧
      (runMain p samples).2 = some
        (traceOf p 0 samples ++
         (if p.relax then
           [Event.bestPdb p.paramPostfix (runIters p initState samples).bestSeed
             (npMean o.iptmptm) o
             ((runIters p initState samples).lastBatch.getD default)]
          else []) ++
         [Event.plddtJson p.paramPostfix (runIters p initState samples).bestSeed
           (npMean o.iptmptm) (npMean o.plddt)] ++
         (if p.isMultimer then
           [Event.ptmJson p.paramPostfix (runIters p initState samples).bestSeed
             (npMean o.iptmptm) (npMean o.iptmptm)]
          else [])) := by
  have hsome := runIters_bestOut_isSome p samples h initState
  obtain ⟨o, ho⟩ := Option.isSome_iff_exists.mp hsome
  refine ⟨o, ho, ?_⟩
  show finalize p (runIters p initState samples) = _
  rw [finalize]
  simp only [ho]
  rw [runIters_events]
  simp [show initState.events = [] from rfl,
    show initState.seedCtr = 0 from rfl, List.append_assoc]

/-- Counterexample to C7 as stated: a completed crosslink run with
relaxation disabled writes NO best-sample structure file at all (the
second-pass best write sits inside the `if args.relax` branch), while the
claim requires a best-structure write for every run. -/
theorem C7_no_best_write_without_relax_counterexample :
    ((runMainRun pW1 [(bW, oW1)]).map (fun r =>
      r.2.map (fun tr => tr.filter isBestPdbEvt))) = some (some []) ∧
    pW1.relax = false := by
  obtain ⟨o, ho, htr⟩ := runMain_trace pW1 [(bW, oW1)] (by simp)
  refine ⟨?_, rfl⟩
  rw [runMainRun_crosslink pW1 [(bW, oW1)] rfl]
  show some (((runMain pW1 [(bW, oW1)]).2).map
    (fun tr => tr.filter isBestPdbEvt)) = some (some [])
  rw [htr]
  rw [show pW1.relax = false from rfl]
  simp [List.filter_append, traceOf_no_best, isBestPdbEvt]

/-- C7 amended: in the crosslink variant each iteration's sample is
persisted unconditionally as a structure file named by the derived seed
and the confidence score (regardless of whether it becomes the best),
the best-sample structure write (named by parameter-file identity,
winning seed and confidence) happens exactly when post-hoc relaxation is
enabled, and the JSON confidence summary is always written; in the RDC
variant the run raises at the first iteration's scoring call and nothing
is ever persisted. -/
theorem C7_crosslink_persistence_rdc_never_writes :
    (∀ (p : Params) (samples : List (NormBatch × NormOut)),
      p.rdcRows? = none → samples ≠ [] →
      ∃ o tr, (runIters p initState samples).bestOut = some o ∧
        runMainRun p samples = some (runIters p initState samples, some tr) ∧
        tr.filterMap iterView = (withIdx 0 samples).map (fun ia =>
          (derivedSeed p.pyHash p.baseSeed ia.1, npMean ia.2.2.iptmptm,
           ia.2.2, ia.2.1)) ∧
        tr.filter isBestPdbEvt =
          (if p.relax then
            [Event.bestPdb p.paramPostfix (runIters p initState samples).bestSeed
              (npMean o.iptmptm) o
              ((runIters p initState samples).lastBatch.getD default)]
           else []) ∧
        tr.filter isPlddtJsonEvt =
          [Event.plddtJson p.paramPostfix (runIters p initState samples).bestSeed
            (npMean o.iptmptm) (npMean o.plddt)]) ∧
    (∀ (p : Params) (rows : List RDCRow)
       (samples : List (NormBatch × NormOut)),
      p.rdcRows? = some rows → samples ≠ [] → runMainRun p samples = none) := by
  constructor
  · intro p samples hv h
    obtain ⟨o, ho, htr⟩ := runMain_trace p samples h
    refine ⟨o,
      traceOf p 0 samples ++
       (if p.relax then
         [Event.bestPdb p.paramPostfix (runIters p initState samples).bestSeed
           (npMean o.iptmptm) o
           ((runIters p initState samples).lastBatch.getD default)]
        else []) ++
       [Event.plddtJson p.paramPostfix (runIters p initState samples).bestSeed
         (npMean o.iptmptm) (npMean o.plddt)] ++
       (if p.isMultimer then
         [Event.ptmJson p.paramPostfix (runIters p initState samples).bestSeed
           (npMean o.iptmptm) (npMean o.iptmptm)]
        else []), ho, ?_, ?_, ?_, ?_⟩
    · rw [runMainRun_crosslink p samples hv,
        show finalize p (runIters p initState samples) =
          (runMain p samples).2 from rfl, htr]
    · rw [List.filterMap_append, List.filterMap_append, List.filterMap_append,
        traceOf_iterView]
      cases hr : p.relax <;> cases hm : p.isMultimer <;>
        simp [iterView, List.filterMap_cons]
    · rw [List.filter_append, List.filter_append, List.filter_append,
        traceOf_no_best]
      cases hr : p.relax <;> cases hm : p.isMultimer <;>
        simp [isBestPdbEvt, List.filter_cons]
    · rw [List.filter_append, List.filter_append, List.filter_append,
        traceOf_no_plddt]
      cases hr : p.relax <;> cases hm : p.isMultimer <;>
        simp [isPlddtJsonEvt, List.filter_cons]
  · exact runMainRun_rdc

/-- Witness for C7 (amended): the one-sample crosslink run completes
with one iteration structure write, no best write (relaxation off) and
one JSON summary entry; the one-sample RDC run dies with no trace. -/
theorem C7_crosslink_persistence_rdc_never_writes_witness :
    (pW1.rdcRows? = none ∧ ([((bW, oW1) : NormBatch × NormOut)] ≠ []) ∧
     (∃ o tr, (runIters pW1 initState [(bW, oW1)]).bestOut = some o ∧
       runMainRun pW1 [(bW, oW1)] =
         some (runIters pW1 initState [(bW, oW1)], some tr) ∧
       tr.filterMap iterView =
         (withIdx 0 [((bW, oW1) : NormBatch × NormOut)]).map
           (fun ia => (derivedSeed pW1.pyHash pW1.baseSeed ia.1,
             npMean ia.2.2.iptmptm, ia.2.2, ia.2.1)) ∧
       tr.filter isBestPdbEvt =
         (if pW1.relax then
           [Event.bestPdb pW1.paramPostfix
             (runIters pW1 initState [(bW, oW1)]).bestSeed
             (npMean o.iptmptm) o
             ((runIters pW1 initState [(bW, oW1)]).lastBatch.getD default)]
          else []) ∧
       tr.filter isPlddtJsonEvt =
         [Event.plddtJson pW1.paramPostfix
           (runIters pW1 initState [(bW, oW1)]).bestSeed
           (npMean o.iptmptm) (npMean o.plddt)])) ∧
    (pWrdc.rdcRows? = some [⟨1, "QQ", "H", 1⟩] ∧
      ([((bW, oW1) : NormBatch × NormOut)] ≠ []) ∧
      runMainRun pWrdc [(bW, oW1)] = none) :=
  ⟨⟨rfl, by simp,
    C7_crosslink_persistence_rdc_never_writes.1 pW1 [(bW, oW1)] rfl (by simp)⟩,
   ⟨rfl, by simp,
    C7_crosslink_persistence_rdc_never_writes.2 pWrdc [⟨1, "QQ", "H", 1⟩]
      [(bW, oW1)] rfl (by simp)⟩⟩

/-- Shared concrete fixture: crosslink parameters with relaxation ON. -/
def pW8 : Params :=
  { pyHash := fun a b => a + b, baseSeed := 3, cutoff := 25, ca_idx := 1,
    atomOrder := fun _ => none, rdcRows? := none, relax := true,
    isMultimer := false, paramPostfix := "w8" }

/-- Shared concrete fixture: a second, distinct feature batch. -/
def bW2 : NormBatch := ⟨[[1]], [2]⟩

/-- Counterexample to C8 as stated: in a two-iteration crosslink run won
by iteration 0, the final best-structure write combines the winning
iteration's output with the LAST (non-winning) iteration's feature batch
(`protein.from_prediction(features=batch, result=out)` reads the loop
variable `batch`, which is never snapshotted) - so the surviving state is
NOT the winning iteration's (output, batch) pair, and a batch from a
non-winning iteration IS used after the iteration that produced it. -/
theorem C8_last_batch_counterexample :
    ((runMainRun pW8 [(bW, oW1), (bW2, oW0)]).map (fun r =>
      r.2.map (fun tr => tr.filterMap bestPdbView))) =
        some (some [(oW1, bW2)]) ∧
    (runIters pW8 initState [(bW, oW1), (bW2, oW0)]).bestOut = some oW1 ∧
    bW2 ≠ bW := by
  have hsc1 : sampleScore pW8 (bW, oW1) = .fin 1 := by
    simp [sampleScore, pW8, oW1, npMean]
  have hsc0 : sampleScore pW8 (bW2, oW0) = .fin 0 := by
    simp [sampleScore, pW8, oW0, npMean]
  have h1 := iterStep_none pW8 initState (bW, oW1) rfl
  have hb1 : HasBest pW8 (iterStep pW8 initState (bW, oW1)) oW1 (.fin 1) := by
    have := h1.1
    rw [hsc1] at this
    exact this
  have hnb : betterP pW8 (sampleScore pW8 (bW2, oW0)) (.fin 1) = false := by
    rw [hsc0]
    norm_num [betterP, pW8, PFloat.lt]
  have hkeep := iterStep_some_keep pW8 _ (bW2, oW0) oW1 (.fin 1) hb1 hnb
  have hbo : (runIters pW8 initState [(bW, oW1), (bW2, oW0)]).bestOut =
      some oW1 := by
    show (iterStep pW8 (iterStep pW8 initState (bW, oW1)) (bW2, oW0)).bestOut =
      some oW1
    exact hkeep.1.1
  have hlb : (runIters pW8 initState [(bW, oW1), (bW2, oW0)]).lastBatch =
      some bW2 := by
    rw [runIters_lastBatch]
    rfl
  obtain ⟨o, ho, htr⟩ := runMain_trace pW8 [(bW, oW1), (bW2, oW0)] (by simp)
  have ho1 : o = oW1 := by
    rw [ho] at hbo
    injection hbo
  refine ⟨?_, hbo, by simp [bW2, bW]⟩
  rw [runMainRun_crosslink pW8 [(bW, oW1), (bW2, oW0)] rfl]
  show some (((runMain pW8 [(bW, oW1), (bW2, oW0)]).2).map
    (fun tr => tr.filterMap bestPdbView)) = some (some [(oW1, bW2)])
  rw [htr]
  rw [show pW8.relax = true from rfl, show pW8.isMultimer = false from rfl]
  simp only [if_true, if_false, Bool.false_eq_true]
  rw [hlb, ho1]
  simp [List.filterMap_append, traceOf_bestPdbView, bestPdbView]

/-- C8 amended: in the crosslink variant the surviving selection
snapshot consists of the winning iteration's NormalizedOutput (with its
score and seed) but NOT its feature batch, and the final best structure
file (when relaxation is enabled) is produced from the winning
NormalizedOutput combined with the LAST iteration's NormalizedBatch; in
the RDC variant the run raises before any snapshot or write exists. -/
theorem C8_snapshot_last_batch_crosslink_rdc_never_writes :
    (∀ (p : Params) (samples : List (NormBatch × NormOut)),
      p.rdcRows? = none → samples ≠ [] → p.relax = true →
      ∃ o lastbo tr, (runIters p initState samples).bestOut = some o ∧
        samples.getLast? = some lastbo ∧
        runMainRun p samples = some (runIters p initState samples, some tr) ∧
        tr.filterMap bestPdbView = [(o, lastbo.1)]) ∧
    (∀ (p : Params) (rows : List RDCRow)
       (samples : List (NormBatch × NormOut)),
      p.rdcRows? = some rows → samples ≠ [] → runMainRun p samples = none) := by
  constructor
  · intro p samples hv h hr
    obtain ⟨o, ho, htr⟩ := runMain_trace p samples h
    obtain ⟨lastbo, hl1, hl2⟩ := foldl_lastBatch samples h initState.lastBatch
    have hlb : (runIters p initState samples).lastBatch = some lastbo.1 := by
      rw [runIters_lastBatch]
      exact hl2
    refine ⟨o, lastbo,
      traceOf p 0 samples ++
       (if p.relax then
         [Event.bestPdb p.paramPostfix (runIters p initState samples).bestSeed
           (npMean o.iptmptm) o
           ((runIters p initState samples).lastBatch.getD default)]
        else []) ++
       [Event.plddtJson p.paramPostfix (runIters p initState samples).bestSeed
         (npMean o.iptmptm) (npMean o.plddt)] ++
       (if p.isMultimer then
         [Event.ptmJson p.paramPostfix (runIters p initState samples).bestSeed
           (npMean o.iptmptm) (npMean o.iptmptm)]
        else []), ho, hl1, ?_, ?_⟩
    · rw [runMainRun_crosslink p samples hv,
        show finalize p (runIters p initState samples) =
          (runMain p samples).2 from rfl, htr]
    · rw [hr]
      simp only [if_true]
      rw [hlb]
      cases hm : p.isMultimer <;>
        simp [List.filterMap_append, traceOf_bestPdbView, bestPdbView,
          List.filterMap_cons]
  · exact runMainRun_rdc

/-- Witness for C8 (amended): on the concrete two-sample relax-enabled
crosslink run the best write pairs the winning output with the last
batch; the concrete RDC run dies with nothing written. -/
theorem C8_snapshot_last_batch_crosslink_rdc_never_writes_witness :
    (pW8.rdcRows? = none ∧
     ([((bW, oW1) : NormBatch × NormOut), (bW2, oW0)] ≠ []) ∧
     pW8.relax = true ∧
     (∃ o lastbo tr,
       (runIters pW8 initState [(bW, oW1), (bW2, oW0)]).bestOut = some o ∧
       ([((bW, oW1) : NormBatch × NormOut), (bW2, oW0)]).getLast? =
         some lastbo ∧
       runMainRun pW8 [(bW, oW1), (bW2, oW0)] =
         some (runIters pW8 initState [(bW, oW1), (bW2, oW0)], some tr) ∧
       tr.filterMap bestPdbView = [(o, lastbo.1)])) ∧
    (pWrdc.rdcRows? = some [⟨1, "QQ", "H", 1⟩] ∧
      ([((bW, oW0) : NormBatch × NormOut)] ≠ []) ∧
      runMainRun pWrdc [(bW, oW0)] = none) :=
  ⟨⟨rfl, by simp, rfl,
    C8_snapshot_last_batch_crosslink_rdc_never_writes.1 pW8
      [(bW, oW1), (bW2, oW0)] rfl (by simp) rfl⟩,
   ⟨rfl, by simp,
    C8_snapshot_last_batch_crosslink_rdc_never_writes.2 pWrdc
      [⟨1, "QQ", "H", 1⟩] [(bW, oW0)] rfl (by simp)⟩⟩

end AlphaLink
